import Mathlib

/-!
Verification of `unctytwod.py` (coordinate/uncertainty transforms between
the focal plane, the gnomonic tangent plane and equatorial coordinates).

The Python source operates on numpy arrays elementwise; the shallow
embedding below models arrays as `List`s (or index functions for the 2-D
triangular coefficient arrays), machine floats as exact reals (`ℝ`), and
per-point 2x2 matrices as `Matrix (Fin 2) (Fin 2) ℝ`.  Methods that
mutate instance attributes are modelled as functions from a state
structure to a state structure, performing the same field updates in the
same order as the source; a method that can raise an exception partway
through is modelled as returning the state reached at the raise point
together with an error flag.
-/

namespace Unctytwod

noncomputable section

open Real

/-! ## Polycoeffs: degree inference and the flat/triangular translation

`Polycoeffs.degfromcoeffs` returns `d = (-3 + sqrt(9 + 8(m-1)))/2`, the
real root of `(d+1)(d+2)/2 = m`.  `assigndeg` accepts the integer part
`k = int(d)` when `|d - k| <= 1e-3` and marks the degree invalid (`-1`)
otherwise.  Since `d >= k` exactly when `sqrt(8m+1) >= 2k+3`, and
`d <= k + 1/1000` exactly when `sqrt(8m+1) <= (2k+3) + 1/500`, the float
comparison is embedded as the equivalent rational inequality on
`8m+1 = (2 degfromcoeffs + 3)^2`, which keeps the test decidable. -/

/-- The acceptance test of `Polycoeffs.assigndeg` for candidate integer
degree `d` given `m` coefficients: the real-valued degree
`(-3 + sqrt(9+8(m-1)))/2` lies in `[d, d + 1e-3]`. -/
def degAccept (m d : ℕ) : Prop :=
  (2 * d + 3) ^ 2 ≤ 8 * m + 1 ∧
    (8 * (m : ℚ) + 1) ≤ ((2 * (d : ℚ) + 3) + 1 / 500) ^ 2

instance (m d : ℕ) : Decidable (degAccept m d) := by
  unfold degAccept; infer_instance

/-- Bounded search for the accepted degree, checking `0, 1, ..., k` in
order (the acceptance intervals are disjoint, so at most one candidate
matches). -/
def searchdeg (m : ℕ) : ℕ → Option ℕ
  | 0 => if degAccept m 0 then some 0 else none
  | k + 1 =>
    match searchdeg m k with
    | some d => some d
    | none => if degAccept m (k + 1) then some (k + 1) else none

/-- `Polycoeffs.assigndeg`: infer the polynomial degree from the number
of flat coefficients `m`, giving `-1` when the inferred real degree is
not within `1e-3` of its integer part. -/
def assigndeg (m : ℕ) : ℤ :=
  match searchdeg m (m + 1) with
  | some d => (d : ℤ)
  | none => -1

/-- `Polycoeffs.ijfromdeg`: the (i, j) power pairs for a degree-`deg`
2-D polynomial, listed in increasing total degree `t = i + j`, and
within each block in increasing `j` (so `i = t - c`, `j = c` for
`c = 0, ..., t`). -/
def ijfromdeg (deg : ℕ) : List (ℕ × ℕ) :=
  (List.range (deg + 1)).flatMap fun t =>
    (List.range (t + 1)).map fun c => (t - c, c)

/-- `ijfromdeg` lifted to the signed degree attribute: a negative degree
yields no index pairs (numpy `range` of a negative stop is empty). -/
def ijfromdegZ (deg : ℤ) : List (ℕ × ℕ) :=
  if deg < 0 then [] else ijfromdeg deg.toNat

/-- Pointwise update of a 2-D coefficient table (one numpy-style
assignment `p2d[i, j] = v`). -/
def setentry (f : ℕ → ℕ → ℝ) (i j : ℕ) (v : ℝ) : ℕ → ℕ → ℝ :=
  fun a b => if a = i ∧ b = j then v else f a b

/-- The fancy-indexed assignment `p2d[i[l], j[l]] = p[l]` of
`Polycoeffs.updatecoeffs2d`, performed left to right. -/
def scatter (f : ℕ → ℕ → ℝ) : List ((ℕ × ℕ) × ℝ) → (ℕ → ℕ → ℝ)
  | [] => f
  | (q, v) :: rest => scatter (setentry f q.1 q.2 v) rest

/-- State of a `Polycoeffs` instance (the flat coefficients `p`, the
inferred degree, the index arrays `i`/`j` zipped as one list, and the
2-D coefficient array, total outside its square shape as well since
numpy reads out of range are out of scope). -/
structure PolycoeffsState where
  p : List ℝ
  deg : ℤ
  ij : List (ℕ × ℕ)
  p2d : ℕ → ℕ → ℝ

/-- `Polycoeffs.updatecoeffs2d`: fill the 2-D array from the flat
vector; does nothing (beyond a warning) when `self.deg < 1`. -/
def updatecoeffs2d (s : PolycoeffsState) : PolycoeffsState :=
  if s.deg < 1 then s
  else { s with p2d := scatter s.p2d (s.ij.zip s.p) }

/-- `Polycoeffs.__init__`: assign the degree and index arrays from the
flat vector, zero-initialize the 2-D array, then run
`updatecoeffs2d`. -/
def polycoeffsNew (p : List ℝ) : PolycoeffsState :=
  updatecoeffs2d
    { p := p, deg := assigndeg p.length, ij := ijfromdegZ (assigndeg p.length),
      p2d := fun _ _ => 0 }

/-- `Polycoeffs.updatecoeffs`: replace the flat vector (if nonempty) and
refresh the 2-D array.  The degree and index arrays are not
re-derived. -/
def updatecoeffsPC (s : PolycoeffsState) (p : List ℝ) : PolycoeffsState :=
  if p.length < 1 then s
  else updatecoeffs2d { s with p := p }

/-! ### Basic facts about the degree search and the enumeration -/

/-- `(d+1)(d+2)` is even, stated as an exact division fact. -/
lemma tri_mul_two (d : ℕ) : (d + 1) * (d + 2) / 2 * 2 = (d + 1) * (d + 2) := by
  obtain ⟨k, hk⟩ := Nat.even_mul_succ_self (d + 1)
  have hk2 : (d + 1) * (d + 2) = k + k := by rw [← hk]
  omega

lemma degAccept_of_tri (d : ℕ) : degAccept ((d + 1) * (d + 2) / 2) d := by
  have h2 := tri_mul_two d
  constructor
  · nlinarith [h2]
  · have hcast : (((d + 1) * (d + 2) / 2 : ℕ) : ℚ) * 2 = ((d : ℚ) + 1) * ((d : ℚ) + 2) := by
      have := congrArg (fun n : ℕ => (n : ℚ)) h2
      push_cast at this
      linarith [this]
    have hq : (8 : ℚ) * ((d + 1) * (d + 2) / 2 : ℕ) + 1 = (2 * (d : ℚ) + 3) ^ 2 := by
      nlinarith [hcast]
    rw [hq]
    have hd : (0 : ℚ) ≤ 2 * (d : ℚ) + 3 := by positivity
    nlinarith [hd]

lemma degAccept_not_of_lt {m d e : ℕ} (h2 : 2 * m = (d + 1) * (d + 2)) (he : e < d) :
    ¬ degAccept m e := by
  rintro ⟨-, hub⟩
  have h8 : (8 : ℚ) * m + 1 = (2 * (d : ℚ) + 3) ^ 2 := by
    have : (2 * m : ℕ) = (d + 1) * (d + 2) := h2
    have hq : (2 : ℚ) * m = ((d : ℚ) + 1) * ((d : ℚ) + 2) := by
      exact_mod_cast congrArg (fun n : ℕ => (n : ℚ)) this
    nlinarith [hq]
  have hde : (e : ℚ) + 1 ≤ (d : ℚ) := by exact_mod_cast he
  nlinarith [hub, h8]

lemma searchdeg_none {m : ℕ} :
    ∀ k, (∀ e ≤ k, ¬ degAccept m e) → searchdeg m k = none := by
  intro k
  induction k with
  | zero => intro h; simp [searchdeg, h 0 le_rfl]
  | succ n ih =>
    intro h
    have hn := ih fun e he => h e (by omega)
    simp [searchdeg, hn, h (n + 1) le_rfl]

lemma searchdeg_mem {m d : ℕ} (hacc : degAccept m d)
    (hmin : ∀ e < d, ¬ degAccept m e) :
    ∀ k, d ≤ k → searchdeg m k = some d := by
  intro k hk
  induction k with
  | zero =>
    have hd0 : d = 0 := Nat.le_zero.mp hk
    subst hd0
    simp [searchdeg, hacc]
  | succ n ih =>
    rcases Nat.lt_or_ge d (n + 1) with hlt | hge
    · have := ih (Nat.lt_succ_iff.mp hlt)
      simp [searchdeg, this]
    · have hd : d = n + 1 := le_antisymm hk hge
      subst hd
      have hnone : searchdeg m n = none := searchdeg_none n fun e he => hmin e (by omega)
      simp [searchdeg, hnone, hacc]

/-- On a flat vector of valid triangular length `(d+1)(d+2)/2`, the
degree inference returns exactly `d`. -/
lemma assigndeg_tri (d : ℕ) : assigndeg ((d + 1) * (d + 2) / 2) = d := by
  have h2 : 2 * ((d + 1) * (d + 2) / 2) = (d + 1) * (d + 2) := by
    have := tri_mul_two d
    omega
  have hmem := searchdeg_mem (m := (d + 1) * (d + 2) / 2) (degAccept_of_tri d)
    (fun e he => degAccept_not_of_lt h2 he) ((d + 1) * (d + 2) / 2 + 1)
    (by nlinarith [h2])
  unfold assigndeg
  rw [hmem]

lemma ijfromdeg_length (d : ℕ) : (ijfromdeg d).length = (d + 1) * (d + 2) / 2 := by
  induction d with
  | zero => rfl
  | succ n ih =>
    have hsplit : ijfromdeg (n + 1) = ijfromdeg n ++
        (List.range (n + 2)).map (fun c => (n + 1 - c, c)) := by
      simp [ijfromdeg, List.range_succ, List.flatMap_append]
    rw [hsplit, List.length_append, ih, List.length_map, List.length_range]
    have h1 := tri_mul_two n
    have h3 : (n + 1 + 1) * (n + 1 + 2) = (n + 1) * (n + 2) + 2 * (n + 2) := by ring
    omega

lemma ijfromdeg_mem {d : ℕ} {q : ℕ × ℕ} (hq : q ∈ ijfromdeg d) :
    q.1 + q.2 ≤ d := by
  unfold ijfromdeg at hq
  simp only [List.mem_flatMap, List.mem_map, List.mem_range] at hq
  obtain ⟨t, ht, c, hc, rfl⟩ := hq
  simp only
  omega

lemma ijfromdeg_nodup (d : ℕ) : (ijfromdeg d).Nodup := by
  unfold ijfromdeg
  rw [List.nodup_flatMap]
  constructor
  · intro t _
    apply List.Nodup.map
    · intro a b h
      exact ((Prod.mk.injEq _ _ _ _).mp h).2
    · exact List.nodup_range _
  · apply (List.pairwise_lt_range _).imp
    intro t₁ t₂ hlt q hq₁ hq₂
    simp only [Function.onFun, List.mem_map, List.mem_range] at hq₁ hq₂
    obtain ⟨c₁, hc₁, rfl⟩ := hq₁
    obtain ⟨c₂, hc₂, h⟩ := hq₂
    have h1 := (Prod.mk.injEq _ _ _ _).mp h
    omega

/-! ### Reading back a scattered coefficient table -/

lemma scatter_notmem (l : List ((ℕ × ℕ) × ℝ)) :
    ∀ (f : ℕ → ℕ → ℝ) {a b : ℕ}, (a, b) ∉ l.map Prod.fst →
      scatter f l a b = f a b := by
  induction l with
  | nil => intro f a b _; rfl
  | cons hd tl ih =>
    intro f a b h
    obtain ⟨⟨i, j⟩, w⟩ := hd
    simp only [List.map_cons, List.mem_cons, not_or] at h
    rw [scatter, ih _ h.2]
    have hne : ¬(a = i ∧ b = j) := by
      rintro ⟨rfl, rfl⟩
      exact h.1 rfl
    simp [setentry, hne]

lemma scatter_read (l : List ((ℕ × ℕ) × ℝ)) :
    ∀ (f : ℕ → ℕ → ℝ), (l.map Prod.fst).Nodup →
      ∀ {q : ℕ × ℕ} {v : ℝ}, (q, v) ∈ l → scatter f l q.1 q.2 = v := by
  induction l with
  | nil => intro _ _ _ _ h; cases h
  | cons hd tl ih =>
    intro f hnd q v hmem
    obtain ⟨⟨i, j⟩, w⟩ := hd
    simp only [List.map_cons, List.nodup_cons] at hnd
    rcases List.mem_cons.mp hmem with heq | htl
    · injection heq with hq hv
      subst hq
      subst hv
      rw [scatter, scatter_notmem _ _ hnd.1]
      simp [setentry]
    · exact ih _ hnd.2 htl

/-- Reading a scattered table back at its own keys recovers the values,
provided the keys are distinct. -/
lemma scatter_zip_read {keys : List (ℕ × ℕ)} (hnd : keys.Nodup) {vals : List ℝ}
    (hlen : keys.length = vals.length) (f : ℕ → ℕ → ℝ) :
    (keys.map fun q => scatter f (keys.zip vals) q.1 q.2) = vals := by
  apply List.ext_getElem
  · simp [hlen]
  · intro n h1 h2
    rw [List.getElem_map]
    have hn1 : n < keys.length := by simpa using h1
    have hn2 : n < vals.length := by rw [← hlen]; exact hn1
    have hnz : n < (keys.zip vals).length := by rw [List.length_zip]; omega
    have hmem : (keys[n], vals[n]) ∈ keys.zip vals := by
      have hz : (keys.zip vals)[n] = (keys[n], vals[n]) := List.getElem_zip
      rw [← hz]
      exact List.getElem_mem hnz
    apply scatter_read
    · rw [List.map_fst_zip _ _ (le_of_eq hlen)]
      exact hnd
    · exact hmem

/-- The state of `Polycoeffs(p)` for a flat vector of valid triangular
length: the inferred degree, index list, and (for degree at least 1) the
scattered 2-D array. -/
lemma polycoeffsNew_tri {d : ℕ} {p : List ℝ} (hlen : p.length = (d + 1) * (d + 2) / 2) :
    polycoeffsNew p =
      updatecoeffs2d
        { p := p, deg := (d : ℤ), ij := ijfromdeg d, p2d := fun _ _ => 0 } := by
  unfold polycoeffsNew
  rw [hlen, assigndeg_tri]
  have hz : ijfromdegZ (d : ℤ) = ijfromdeg d := by
    unfold ijfromdegZ
    simp
  rw [hz]

/-- C5: the code takes the "inconsistent degree" branch of
`updatecoeffs2d` whenever `deg < 1`, so for a single flat coefficient
(valid degree 0) the coefficient array is never populated even though
the inferred degree 0 is valid — contradicting the code's own warning
message (`"degree < 0"`) and the spec's claim that population is a no-op
only for invalid (−1) degree.  Evaluating the code at the failing input
`p = [5]`: the degree is correctly inferred as 0, yet the 2-D array
entry for the constant term stays 0. -/
theorem polycoeffs_deg0_unpopulated :
    (polycoeffsNew [(5 : ℝ)]).deg = 0 ∧ (polycoeffsNew [(5 : ℝ)]).p2d 0 0 = 0 := by
  have hlen : ([(5 : ℝ)]).length = (0 + 1) * (0 + 2) / 2 := by norm_num
  rw [polycoeffsNew_tri hlen]
  constructor
  · simp [updatecoeffs2d]
  · simp [updatecoeffs2d]

/-- C6 (amended): for every valid degree `d ≥ 1` and every flat vector
`p` of length `(d+1)(d+2)/2`, constructing `Polycoeffs(p)` and reading
the 2-D array back at the `(i, j)` pairs of `ijfromdeg` reproduces `p`
exactly.  (Degree 0 is excluded: the `deg < 1` guard of
`updatecoeffs2d` leaves the array unpopulated there.) -/
theorem polycoeffs_roundtrip (d : ℕ) (hd : 1 ≤ d) (p : List ℝ)
    (hlen : p.length = (d + 1) * (d + 2) / 2) :
    ((ijfromdeg d).map fun q => (polycoeffsNew p).p2d q.1 q.2) = p := by
  rw [polycoeffsNew_tri hlen]
  have hguard : ¬ ((d : ℤ) < 1) := by exact_mod_cast Nat.not_lt.mpr hd
  unfold updatecoeffs2d
  simp only [hguard, if_false]
  exact scatter_zip_read (ijfromdeg_nodup d) (by rw [ijfromdeg_length, hlen]) _

/-- Witness for C6 (amended) at degree 1 with `p = [1, 2, 3]`. -/
theorem polycoeffs_roundtrip_witness :
    1 ≤ 1 ∧ ([(1 : ℝ), 2, 3]).length = (1 + 1) * (1 + 2) / 2 ∧
      ((ijfromdeg 1).map fun q => (polycoeffsNew [(1 : ℝ), 2, 3]).p2d q.1 q.2) =
        [(1 : ℝ), 2, 3] :=
  ⟨le_rfl, by norm_num,
    polycoeffs_roundtrip 1 le_rfl [(1 : ℝ), 2, 3] (by norm_num)⟩

/-- C6 counterexample: at valid degree 0 (`p = [5]`, length 1 = 1·2/2)
the read-back yields `[0]`, not `[5]` — the claim fails for d = 0. -/
theorem polycoeffs_roundtrip_deg0_fails :
    ((ijfromdeg 0).map fun q => (polycoeffsNew [(5 : ℝ)]).p2d q.1 q.2) = [(0 : ℝ)] ∧
      (0 : ℝ) ≠ 5 := by
  constructor
  · have hlen : ([(5 : ℝ)]).length = (0 + 1) * (0 + 2) / 2 := by norm_num
    have h0 : ijfromdeg 0 = [(0, 0)] := by decide
    rw [polycoeffsNew_tri hlen, h0]
    simp [updatecoeffs2d]
  · norm_num

/-! ## Parvec: splitting a full parameter vector

`Parvec.ingestpars` writes `self.tangentpoint = pars[0:2]` *before* any
validity check on the polynomial coefficient counts.  Its invalid-count
branch reads `self.Verbose`, an attribute `Parvec` never sets, so that
branch raises `AttributeError`; the state reached at the raise point is
returned together with an error flag. -/

/-- Exact-integrality test used by `Parvec.ingestpars`:
`degfromcoeffs(m) - int(degfromcoeffs(m)) > 0` is False exactly when
`(-3 + sqrt(9+8(m-1)))/2` is an integer, i.e. when `2m = (d+1)(d+2)`
for some `d`. -/
def degIsInt (m : ℕ) : Prop :=
  ((List.range (m + 1)).any fun d => 2 * m == (d + 1) * (d + 2)) = true

instance (m : ℕ) : Decidable (degIsInt m) := by
  unfold degIsInt; infer_instance

lemma degIsInt_iff (m : ℕ) :
    degIsInt m ↔ ∃ d : ℕ, 2 * m = (d + 1) * (d + 2) := by
  unfold degIsInt
  rw [List.any_eq_true]
  constructor
  · rintro ⟨d, -, hd⟩
    exact ⟨d, by simpa using hd⟩
  · rintro ⟨d, hd⟩
    refine ⟨d, List.mem_range.mpr ?_, by simpa using hd⟩
    nlinarith [hd]

/-- State of a `Parvec` instance. -/
structure ParvecState where
  hasxy0 : Bool
  inds6 : List ℕ
  parsx : List ℝ
  parsy : List ℝ
  tangentpoint : List ℝ

/-- `Parvec.ingestpars`, with the mutations applied in source order.
The returned `Bool` is `true` when the method raises `AttributeError`
(the invalid-count branch reads the never-set `self.Verbose`); the
returned state is the instance state at that point. -/
def parvecIngestpars (s : ParvecState) (pars : List ℝ) : ParvecState × Bool :=
  if pars.length < 2 then (s, false)
  else if pars.length < 3 then ({ s with tangentpoint := pars.take 2 }, false)
  else if (pars.drop 2).length % 2 > 0 then
    ({ s with tangentpoint := pars.take 2 }, false)
  else if degIsInt ((pars.drop 2).take ((pars.drop 2).length / 2)).length then
    ({ s with tangentpoint := pars.take 2,
              inds6 := [0, 2, 3, 1, (pars.drop 2).length / 2 + 2,
                        (pars.drop 2).length / 2 + 3],
              parsx := (pars.drop 2).take ((pars.drop 2).length / 2),
              parsy := (pars.drop 2).drop ((pars.drop 2).length / 2) }, false)
  else if degIsInt (((pars.drop 2).take ((pars.drop 2).length / 2)).length + 1) then
    ({ s with tangentpoint := pars.take 2,
              inds6 := [0, 2, 3, 1, (pars.drop 2).length / 2 + 2,
                        (pars.drop 2).length / 2 + 3],
              hasxy0 := false,
              parsx := 0 :: (pars.drop 2).take ((pars.drop 2).length / 2),
              parsy := 0 :: (pars.drop 2).drop ((pars.drop 2).length / 2) }, false)
  else
    ({ s with tangentpoint := pars.take 2,
              inds6 := [0, 2, 3, 1, (pars.drop 2).length / 2 + 2,
                        (pars.drop 2).length / 2 + 3] }, true)

/-- `Parvec.__init__` starts from empty parameter lists with
`hasxy0 = True`. -/
def parvecInit : ParvecState :=
  { hasxy0 := true, inds6 := [], parsx := [], parsy := [], tangentpoint := [] }

/-- A concrete `Parvec`-like state used to exhibit the behaviour of
`ingestpars` on an invalid parameter vector. -/
def parvecDemoState : ParvecState :=
  { hasxy0 := true, inds6 := [], parsx := [7], parsy := [8], tangentpoint := [9, 9] }

/-- C4 counterexample: for the invalid parameter vector
`[1, 2, 1, 1, 1, 1, 1, 1, 1, 1]` (eight polynomial coefficients, so
four per axis — not a triangular count with or without a constant
term), `ingestpars` has already overwritten `tangentpoint` with
`[1, 2]` when it aborts (and the abort itself raises `AttributeError`,
since the failure branch reads the never-assigned `self.Verbose`).  The
prior tangent point `[9, 9]` is not retained, refuting the claim. -/
theorem parvec_ingest_invalid_clobbers_tangentpoint :
    (parvecIngestpars parvecDemoState [1, 2, 1, 1, 1, 1, 1, 1, 1, 1]).1.tangentpoint
        = [(1 : ℝ), 2] ∧
      parvecDemoState.tangentpoint = [(9 : ℝ), 9] ∧
      ([(1 : ℝ), 2] : List ℝ) ≠ [(9 : ℝ), 9] ∧
      (parvecIngestpars parvecDemoState [1, 2, 1, 1, 1, 1, 1, 1, 1, 1]).2 = true := by
  have h4 : ¬ degIsInt 4 := by decide
  have h5 : ¬ degIsInt 5 := by decide
  refine ⟨?_, rfl, by simp, ?_⟩ <;>
    simp [parvecIngestpars, parvecDemoState, h4, h5, List.take, List.drop]

/-- C4 (amended): for every prior state and every parameter vector of
size ≥ 3 whose (even) x/y coefficient counts match no triangular length
with or without a leading constant, `ingestpars` leaves `parsx`,
`parsy` and `hasxy0` unchanged and raises — but `tangentpoint` has
already been replaced by the first two entries of the vector before the
abort. -/
theorem parvec_ingest_invalid_aborts (s : ParvecState) (pars : List ℝ)
    (h3 : 3 ≤ pars.length) (heven : (pars.length - 2) % 2 = 0)
    (hx : ¬ degIsInt ((pars.length - 2) / 2))
    (hx1 : ¬ degIsInt ((pars.length - 2) / 2 + 1)) :
    (parvecIngestpars s pars).1.parsx = s.parsx ∧
      (parvecIngestpars s pars).1.parsy = s.parsy ∧
      (parvecIngestpars s pars).1.hasxy0 = s.hasxy0 ∧
      (parvecIngestpars s pars).1.tangentpoint = pars.take 2 ∧
      (parvecIngestpars s pars).2 = true := by
  have hdrop : (pars.drop 2).length = pars.length - 2 := List.length_drop ..
  have htake : ((pars.drop 2).take ((pars.drop 2).length / 2)).length
      = (pars.length - 2) / 2 := by
    rw [List.length_take, hdrop]
    omega
  unfold parvecIngestpars
  rw [if_neg (by omega), if_neg (by omega), if_neg (by rw [hdrop]; omega),
    htake, if_neg hx, if_neg hx1]
  exact ⟨rfl, rfl, rfl, rfl, rfl⟩

/-- Witness for C4 (amended) at the demo state and the invalid vector
`[1, 2, 1, 1, 1, 1, 1, 1, 1, 1]`. -/
theorem parvec_ingest_invalid_aborts_witness :
    3 ≤ ([1, 2, 1, 1, 1, 1, 1, 1, 1, 1] : List ℝ).length ∧
      (parvecIngestpars parvecDemoState [1, 2, 1, 1, 1, 1, 1, 1, 1, 1]).1.parsx
        = parvecDemoState.parsx :=
  ⟨by simp,
    (parvec_ingest_invalid_aborts parvecDemoState [1, 2, 1, 1, 1, 1, 1, 1, 1, 1]
      (by simp) (by simp) (by simp; decide) (by simp; decide)).1⟩

/-! ## Poly: polynomial transform with the numpy `Polynomial` backend

The `Poly` class dispatches on `kindpoly`; the claims all concern the
`'Polynomial'` family, whose backend functions are
`polynomial.polynomial.polyval2d` (evaluation of a 2-D coefficient
array) and `polynomial.polynomial.polyder` (one differentiation along a
chosen axis).  Coefficient arrays of shape `(n, n)` are modelled as
functions `ℕ → ℕ → ℝ` read only on `[0, n) × [0, n)`. -/

/-- A per-point 2x2 matrix. -/
abbrev Mat2 := Matrix (Fin 2) (Fin 2) ℝ

/-- `numpy.polynomial.polynomial.polyval2d` on an `n × n` coefficient
table: `sum c[i, j] * x^i * y^j`. -/
def polyval2d (n : ℕ) (c : ℕ → ℕ → ℝ) (x y : ℝ) : ℝ :=
  ∑ i ∈ Finset.range n, ∑ j ∈ Finset.range n, c i j * x ^ i * y ^ j

/-- The rescale `(2v - (vmax + vmin))/(vmax - vmin)` used by both
`Poly.rescalexy` and `Patternmatrix.rescalexy`. -/
def rescaleval (vmin vmax v : ℝ) : ℝ := (2 * v - (vmax + vmin)) / (vmax - vmin)

/-- `polyder(c, 1, 1, axis=0)` followed by the zero-row padding of
`Poly.derivcoeffs`: the result keeps shape `n × n` with
`cdx[i, j] = (i+1) c[i+1, j]` for `i+1 < n` and a zero last row. -/
def derivXpad (n : ℕ) (c : ℕ → ℕ → ℝ) : ℕ → ℕ → ℝ :=
  fun i j => if i + 1 < n then (i + 1 : ℕ) * c (i + 1) j else 0

/-- `polyder(c, 1, 1, axis=1)` followed by the zero-column padding of
`Poly.derivcoeffs`. -/
def derivYpad (n : ℕ) (c : ℕ → ℕ → ℝ) : ℕ → ℕ → ℝ :=
  fun i j => if j + 1 < n then (j + 1 : ℕ) * c i (j + 1) else 0

/-- Side length of the (square) 2-D coefficient array of a
`Polycoeffs` state: `deg + 1` (zero for the invalid degree `-1`). -/
def pcN (s : PolycoeffsState) : ℕ := (s.deg + 1).toNat

/-- The rescale Jacobian `diag(2/(xmax-xmin), 2/(ymax-ymin))` of
`Poly.setjacrescale`. -/
def jacrescaleOf (xmin xmax ymin ymax : ℝ) : Mat2 :=
  Matrix.of ![![2 / (xmax - xmin), 0], ![0, 2 / (ymax - ymin)]]

/-- State of a `Poly` instance (fields relevant to the claims; the
`kind` is fixed to `'Polynomial'`). -/
structure PolyState where
  x : List ℝ
  y : List ℝ
  xr : List ℝ
  yr : List ℝ
  covxy : List Mat2
  parsx : List ℝ
  parsy : List ℝ
  pars2x : PolycoeffsState
  pars2y : PolycoeffsState
  cxx : ℕ → ℕ → ℝ
  cxy : ℕ → ℕ → ℝ
  cyx : ℕ → ℕ → ℝ
  cyy : ℕ → ℕ → ℝ
  xmin : ℝ
  xmax : ℝ
  ymin : ℝ
  ymax : ℝ
  jacrescale : Mat2
  jacpoly : List Mat2
  jac : List Mat2
  xtran : List ℝ
  ytran : List ℝ

/-- `Poly.rescalexy` applied to both coordinate arrays. -/
def rescalexyP (s : PolyState) (x y : List ℝ) : List ℝ × List ℝ :=
  (x.map (rescaleval s.xmin s.xmax), y.map (rescaleval s.ymin s.ymax))

/-- `Poly.propxy`: rescale, then evaluate the two 2-D polynomials at
the rescaled points; empty input returns empty output. -/
def polyPropxy (s : PolyState) (x y : List ℝ) : List ℝ × List ℝ :=
  if x.length < 1 ∨ y.length < 1 then ([], [])
  else
    ((x.map (rescaleval s.xmin s.xmax)).zipWith
        (fun a b => polyval2d (pcN s.pars2x) s.pars2x.p2d a b)
        (y.map (rescaleval s.ymin s.ymax)),
      (x.map (rescaleval s.xmin s.xmax)).zipWith
        (fun a b => polyval2d (pcN s.pars2y) s.pars2y.p2d a b)
        (y.map (rescaleval s.ymin s.ymax)))

/-- `Poly.setderivcoeffs`: refresh the four derivative coefficient
arrays from the current 2-D coefficient arrays. -/
def setderivcoeffsP (s : PolyState) : PolyState :=
  { s with cxx := derivXpad (pcN s.pars2x) s.pars2x.p2d,
           cxy := derivYpad (pcN s.pars2x) s.pars2x.p2d,
           cyx := derivXpad (pcN s.pars2y) s.pars2y.p2d,
           cyy := derivYpad (pcN s.pars2y) s.pars2y.p2d }

/-- `Poly.evaluatejacpoly`: evaluate the four derivative arrays at the
rescaled points, one 2x2 matrix per point; empty input gives an empty
stack. -/
def evaluatejacpolyP (s : PolyState) (xr yr : List ℝ) : List Mat2 :=
  if xr.length < 1 ∨ yr.length < 1 then []
  else
    (xr.zip yr).map fun q =>
      Matrix.of
        ![![polyval2d (pcN s.pars2x) s.cxx q.1 q.2,
            polyval2d (pcN s.pars2x) s.cxy q.1 q.2],
          ![polyval2d (pcN s.pars2y) s.cyx q.1 q.2,
            polyval2d (pcN s.pars2y) s.cyy q.1 q.2]]

/-- `Poly.populatejacpoly`: no-op when the Jacobian stack was never
initialized (no data); otherwise recompute the derivative coefficients
and re-evaluate the polynomial Jacobian at the stored rescaled
points. -/
def populatejacpolyP (s : PolyState) : PolyState :=
  if s.jacpoly.length < 1 then s
  else { setderivcoeffsP s with
           jacpoly := evaluatejacpolyP (setderivcoeffsP s) s.xr s.yr }

/-- `Poly.combinejac`: `jac = matmul(jacrescale, jacpoly)` per point;
no-op when the polynomial Jacobian stack is empty. -/
def combinejacP (s : PolyState) : PolyState :=
  if s.jacpoly.length < 1 then s
  else { s with jac := s.jacpoly.map fun J => s.jacrescale * J }

/-- `Poly.setjacrescale`. -/
def setjacrescaleP (s : PolyState) : PolyState :=
  { s with jacrescale := jacrescaleOf s.xmin s.xmax s.ymin s.ymax }

/-- `Poly.initjacpoly`: an identity 2x2 matrix per data point (empty
when there is no data). -/
def initjacpolyP (s : PolyState) : PolyState :=
  if s.x.length < 1 then { s with jacpoly := [] }
  else { s with jacpoly := List.replicate s.x.length (1 : Mat2) }

/-- `Poly.getjacobian`: refresh the rescale Jacobian, initialize the
polynomial Jacobian stack if needed, then populate and combine. -/
def getjacobianP (s : PolyState) : PolyState :=
  combinejacP (populatejacpolyP
    (if (setjacrescaleP s).jacpoly.length < 1 then initjacpolyP (setjacrescaleP s)
     else setjacrescaleP s))

/-- `Poly.rescalepos`: store the rescaled coordinates. -/
def rescaleposP (s : PolyState) : PolyState :=
  { s with xr := s.x.map (rescaleval s.xmin s.xmax),
           yr := s.y.map (rescaleval s.ymin s.ymax) }

/-- `Poly.updatejacobian` (without the plotting convenience `xytran`):
rescale positions then rebuild the Jacobians.  The domain is *not*
re-derived here. -/
def updatejacobianP (s : PolyState) : PolyState :=
  getjacobianP (rescaleposP s)

/-- `Poly.__init__` with explicit (not-None) domain limits, empty prior
Jacobian state, and the `'Polynomial'` family.  The covariance array is
ingested only when its count matches the data count
(`Poly.updatedata`). -/
def polyNew (x y : List ℝ) (covxy : List Mat2) (parsx parsy : List ℝ)
    (xmin xmax ymin ymax : ℝ) : PolyState :=
  updatejacobianP
    { x := x, y := y, xr := [], yr := [],
      covxy := if covxy.length = x.length then covxy else [],
      parsx := parsx, parsy := parsy,
      pars2x := polycoeffsNew parsx, pars2y := polycoeffsNew parsy,
      cxx := fun _ _ => 0, cxy := fun _ _ => 0,
      cyx := fun _ _ => 0, cyy := fun _ _ => 0,
      xmin := xmin, xmax := xmax, ymin := ymin, ymax := ymax,
      jacrescale := jacrescaleOf xmin xmax ymin ymax,
      jacpoly := [], jac := [], xtran := [], ytran := [] }

/-- `Poly.splitpars`: halves of a flat vector (empty halves when fewer
than two entries). -/
def splitparsP (pars : List ℝ) : List ℝ × List ℝ :=
  if pars.length < 2 then ([], [])
  else (pars.take (pars.length / 2), pars.drop (pars.length / 2))

/-- `Poly.setuppars`: rebuild both `Polycoeffs` objects from the stored
flat vectors. -/
def setupparsP (s : PolyState) : PolyState :=
  { s with pars2x := polycoeffsNew s.parsx, pars2y := polycoeffsNew s.parsy }

/-- The `if self.pars2x.deg < 0: self.setuppars()` step of
`Poly.updatetransf`. -/
def polyEnsurePars (s : PolyState) : PolyState :=
  if s.pars2x.deg < 0 then setupparsP s else s

/-- The `updatecoeffs` pair of calls in `Poly.updatetransf`. -/
def polyRefreshCoeffs (s : PolyState) (px py : List ℝ) : PolyState :=
  { s with pars2x := updatecoeffsPC s.pars2x px,
           pars2y := updatecoeffsPC s.pars2y py }

/-- `Poly.updatetransf`: split the flat vector, store the halves,
refresh the coefficient objects, the derivative coefficients, the
polynomial Jacobian and the combined Jacobian; a vector whose x-half
comes out empty is a no-op. -/
def polyUpdatetransf (s : PolyState) (pars : List ℝ) : PolyState :=
  if (splitparsP pars).1.length < 1 then s
  else
    combinejacP (populatejacpolyP (setderivcoeffsP
      (polyRefreshCoeffs
        (polyEnsurePars
          { s with parsx := (splitparsP pars).1, parsy := (splitparsP pars).2 })
        (splitparsP pars).1 (splitparsP pars).2)))

/-- `Poly.propcov`: rescale the input points, evaluate the polynomial
Jacobian there (with the *cached* derivative coefficient arrays),
left-multiply by the rescale Jacobian and sandwich the covariances. -/
def polyPropcov (s : PolyState) (C : List Mat2) (x y : List ℝ) : List Mat2 :=
  (((evaluatejacpolyP s (x.map (rescaleval s.xmin s.xmax))
        (y.map (rescaleval s.ymin s.ymax))).map
      (fun Jp => s.jacrescale * Jp)).zip C).map
    fun p => p.1 * (p.2 * p.1.transpose)

/-! ## Patternmatrix: the least-squares design matrix

`Patternmatrix` enumerates powers in numpy `polyvander2d` order: column
`l` of the Vandermonde array holds `x^i y^j` with `i = l // (deg+1)`,
`j = l %% (deg+1)`; `selectpowers` keeps the columns with `i + j <= deg`
in increasing `l`, i.e. in *row-major* (increasing `i`, then `j`)
order — not the total-degree order of `Polycoeffs.ijfromdeg`. -/

/-- The selected power pairs of `Patternmatrix.buildpowers` /
`selectpowers`, in Vandermonde column order. -/
def patternPairs (deg : ℕ) : List (ℕ × ℕ) :=
  ((List.range ((deg + 1) * (deg + 1))).map fun l => (l / (deg + 1), l % (deg + 1))).filter
    fun q => q.1 + q.2 ≤ deg

/-- One row of the selected Vandermonde array: the basis monomials at a
rescaled point. -/
def vanderRow (deg : ℕ) (xr yr : ℝ) : List ℝ :=
  (patternPairs deg).map fun q => xr ^ q.1 * yr ^ q.2

/-- Dot product of two rows (trailing entries of the longer row are
ignored, as in a matrix product both always have length `2M`). -/
def dotList (a b : List ℝ) : ℝ := ((a.zip b).map fun p => p.1 * p.2).sum

/-- `np.min` (defaulting to 0 on empty input, which numpy rejects). -/
def npmin : List ℝ → ℝ
  | [] => 0
  | a :: t => t.foldl min a

/-- `np.max` (defaulting to 0 on empty input, which numpy rejects). -/
def npmax : List ℝ → ℝ
  | [] => 0
  | a :: t => t.foldl max a

/-- State of a `Patternmatrix` instance. -/
structure PatternmatrixState where
  deg : ℕ
  x : List ℝ
  y : List ℝ
  norescale : Bool
  xmin : ℝ
  xmax : ℝ
  ymin : ℝ
  ymax : ℝ
  xr : List ℝ
  yr : List ℝ

/-- `Patternmatrix.__init__` (`setlims` then `rescalexy`): with
`norescale` the domain is pinned to `[-1, 1]^2`, otherwise it is the
min/max of the data. -/
def patternmatrixNew (deg : ℕ) (x y : List ℝ) (norescale : Bool) : PatternmatrixState :=
  { deg := deg, x := x, y := y, norescale := norescale,
    xmin := if norescale then -1 else npmin x,
    xmax := if norescale then 1 else npmax x,
    ymin := if norescale then -1 else npmin y,
    ymax := if norescale then 1 else npmax y,
    xr := x.map (rescaleval (if norescale then -1 else npmin x)
      (if norescale then 1 else npmax x)),
    yr := y.map (rescaleval (if norescale then -1 else npmin y)
      (if norescale then 1 else npmax y)) }

/-- Row 0 of `pattern[k]`: the Vandermonde entries in columns `[0, M)`
and zeros in columns `[M, 2M)`. -/
def patternRow0 (pm : PatternmatrixState) (k : ℕ) : List ℝ :=
  vanderRow pm.deg (pm.xr.getD k 0) (pm.yr.getD k 0) ++
    List.replicate (patternPairs pm.deg).length 0

/-- Row 1 of `pattern[k]`: zeros in columns `[0, M)` and the Vandermonde
entries in columns `[M, 2M)`. -/
def patternRow1 (pm : PatternmatrixState) (k : ℕ) : List ℝ :=
  List.replicate (patternPairs pm.deg).length 0 ++
    vanderRow pm.deg (pm.xr.getD k 0) (pm.yr.getD k 0)

/-- `pattern[k] @ pars`: the per-point product of the pattern matrix
with a flat `[x-coeffs; y-coeffs]` parameter vector. -/
def patternTimes (pm : PatternmatrixState) (pars : List ℝ) (k : ℕ) : ℝ × ℝ :=
  (dotList (patternRow0 pm k) pars, dotList (patternRow1 pm k) pars)

/-- Position of a power pair among the pattern matrix's columns. -/
def patternIdx (deg : ℕ) (pr : ℕ × ℕ) : ℕ :=
  @List.indexOf (ℕ × ℕ) instBEqOfDecidableEq pr (patternPairs deg)

/-- Permutation translating a flat coefficient vector from the pattern
matrix's row-major power order into `Polycoeffs`' total-degree order:
entry `l` of the result is the input entry sitting at the pattern-matrix
column of the power pair `ijfromdeg[l]`. -/
def reorderToPoly (deg : ℕ) (q : List ℝ) : List ℝ :=
  (ijfromdeg deg).map fun pr => q.getD (patternIdx deg pr) 0

/-! ### Evaluating a scattered coefficient table -/

lemma polyval2d_zerofn (n : ℕ) (x y : ℝ) : polyval2d n (fun _ _ => 0) x y = 0 := by
  simp [polyval2d]

lemma polyval2d_setentry (n : ℕ) (f : ℕ → ℕ → ℝ) {i j : ℕ} (hi : i < n) (hj : j < n)
    (v x y : ℝ) :
    polyval2d n (setentry f i j v) x y
      = polyval2d n f x y + (v - f i j) * (x ^ i * y ^ j) := by
  have inner : ∀ a, (∑ b ∈ Finset.range n, setentry f i j v a b * x ^ a * y ^ b)
      = (∑ b ∈ Finset.range n, f a b * x ^ a * y ^ b)
        + (if a = i then (v - f i j) * (x ^ i * y ^ j) else 0) := by
    intro a
    by_cases ha : a = i
    · subst ha
      simp only [if_pos rfl]
      have hterm : ∀ b, setentry f a j v a b * x ^ a * y ^ b
          = f a b * x ^ a * y ^ b + (if b = j then (v - f a j) * (x ^ a * y ^ j) else 0) := by
        intro b
        by_cases hb : b = j
        · subst hb
          rw [show setentry f a b v a b = v from by simp [setentry]]
          simp only [eq_self_iff_true, if_true]
          ring
        · simp [setentry, hb]
      rw [Finset.sum_congr rfl fun b _ => hterm b, Finset.sum_add_distrib,
        Finset.sum_ite_eq' (Finset.range n) j]
      simp [Finset.mem_range.mpr hj]
    · simp only [if_neg ha, add_zero]
      apply Finset.sum_congr rfl
      intro b _
      have hcond : ¬(a = i ∧ b = j) := fun h => ha h.1
      simp [setentry, hcond]
  unfold polyval2d
  rw [Finset.sum_congr rfl fun a _ => inner a, Finset.sum_add_distrib,
    Finset.sum_ite_eq' (Finset.range n) i]
  simp [Finset.mem_range.mpr hi]

lemma polyval2d_scatter (n : ℕ) (x y : ℝ) :
    ∀ (l : List ((ℕ × ℕ) × ℝ)) (f : ℕ → ℕ → ℝ),
      (l.map Prod.fst).Nodup →
      (∀ q ∈ l.map Prod.fst, q.1 < n ∧ q.2 < n) →
      (∀ q ∈ l.map Prod.fst, f q.1 q.2 = 0) →
      polyval2d n (scatter f l) x y
        = polyval2d n f x y + (l.map fun e => e.2 * (x ^ e.1.1 * y ^ e.1.2)).sum := by
  intro l
  induction l with
  | nil => intro f _ _ _; simp [scatter]
  | cons hd tl ih =>
    intro f hnd hrange hzero
    obtain ⟨⟨i, j⟩, v⟩ := hd
    simp only [List.map_cons, List.nodup_cons] at hnd
    have hij : (i, j) ∈ (((i, j), v) :: tl).map Prod.fst := by simp
    have hzt : ∀ q ∈ tl.map Prod.fst, setentry f i j v q.1 q.2 = 0 := by
      intro q hq
      have hne : q ≠ (i, j) := fun h => hnd.1 (h ▸ hq)
      have hcond : ¬(q.1 = i ∧ q.2 = j) := by
        rintro ⟨h1, h2⟩
        apply hne
        cases q
        simp_all
      simp only [setentry, if_neg hcond]
      exact hzero q (by simp [hq])
    rw [scatter, ih (setentry f i j v) hnd.2
      (fun q hq => hrange q (by simp [hq])) hzt]
    rw [polyval2d_setentry n f (hrange (i, j) hij).1 (hrange (i, j) hij).2 v x y,
      hzero (i, j) hij]
    simp only [List.map_cons, List.sum_cons]
    ring

/-! ### The two power enumerations cover the same set -/

lemma patternPairs_nodup (d : ℕ) : (patternPairs d).Nodup := by
  apply List.Nodup.filter
  apply List.Nodup.map_on
  · intro a ha b hb h
    obtain ⟨h1, h2⟩ := Prod.ext_iff.mp h
    simp only at h1 h2
    have e1 := Nat.div_add_mod a (d + 1)
    have e2 := Nat.div_add_mod b (d + 1)
    rw [h1, h2] at e1
    omega
  · exact List.nodup_range _

lemma mem_patternPairs {d : ℕ} {q : ℕ × ℕ} :
    q ∈ patternPairs d ↔ q.1 + q.2 ≤ d := by
  unfold patternPairs
  rw [List.mem_filter]
  constructor
  · rintro ⟨-, h⟩
    simpa using h
  · intro h
    refine ⟨?_, by simpa using h⟩
    rw [List.mem_map]
    refine ⟨(d + 1) * q.1 + q.2, List.mem_range.mpr ?_, ?_⟩
    · nlinarith [h]
    · have hq2 : q.2 < d + 1 := by omega
      have hdiv : ((d + 1) * q.1 + q.2) / (d + 1) = q.1 := by
        rw [Nat.mul_add_div (by omega)]
        simp [Nat.div_eq_of_lt hq2]
      have hmod : ((d + 1) * q.1 + q.2) % (d + 1) = q.2 := by
        rw [Nat.mul_add_mod]
        exact Nat.mod_eq_of_lt hq2
      rw [hdiv, hmod]

lemma mem_ijfromdeg {d : ℕ} {q : ℕ × ℕ} :
    q ∈ ijfromdeg d ↔ q.1 + q.2 ≤ d := by
  constructor
  · exact ijfromdeg_mem
  · intro h
    unfold ijfromdeg
    rw [List.mem_flatMap]
    refine ⟨q.1 + q.2, List.mem_range.mpr (by omega), ?_⟩
    rw [List.mem_map]
    exact ⟨q.2, List.mem_range.mpr (by omega), by
      have : q.1 + q.2 - q.2 = q.1 := by omega
      rw [this]⟩

/-- The total-degree enumeration is a permutation of the pattern
matrix's row-major enumeration. -/
lemma ijfromdeg_perm_patternPairs (d : ℕ) :
    (ijfromdeg d).Perm (patternPairs d) := by
  apply List.perm_of_nodup_nodup_toFinset_eq (ijfromdeg_nodup d) (patternPairs_nodup d)
  ext q
  simp [List.mem_toFinset, mem_ijfromdeg, mem_patternPairs]

lemma patternPairs_length (d : ℕ) :
    (patternPairs d).length = (d + 1) * (d + 2) / 2 := by
  rw [← (ijfromdeg_perm_patternPairs d).length_eq, ijfromdeg_length]

/-! ### Pattern-matrix product versus polynomial evaluation -/

lemma dotList_zeros (m : ℕ) : ∀ (l : List ℝ), dotList (List.replicate m 0) l = 0 := by
  induction m with
  | zero => intro l; simp [dotList]
  | succ k ih =>
    intro l
    cases l with
    | nil => simp [dotList]
    | cons a t =>
      have ht := ih t
      simp only [dotList, List.replicate_succ, List.zip_cons_cons, List.map_cons,
        List.sum_cons, zero_mul, zero_add] at ht ⊢
      exact ht

lemma dotList_append_left {a c : List ℝ} (h : a.length = c.length) (b e : List ℝ) :
    dotList (a ++ b) (c ++ e) = dotList a c + dotList b e := by
  unfold dotList
  rw [List.zip_append h, List.map_append, List.sum_append]

lemma polycoeffsNew_deg {d : ℕ} {p : List ℝ} (hlen : p.length = (d + 1) * (d + 2) / 2) :
    (polycoeffsNew p).deg = (d : ℤ) := by
  rw [polycoeffsNew_tri hlen]
  unfold updatecoeffs2d
  split <;> rfl

lemma polycoeffsNew_p2d {d : ℕ} (hd : 1 ≤ d) {p : List ℝ}
    (hlen : p.length = (d + 1) * (d + 2) / 2) :
    (polycoeffsNew p).p2d = scatter (fun _ _ => 0) ((ijfromdeg d).zip p) := by
  rw [polycoeffsNew_tri hlen]
  unfold updatecoeffs2d
  split
  · rename_i h
    simp only at h
    exfalso
    omega
  · rfl

/-- Zipping a list with its own image collapses to a single map. -/
lemma zip_self_map {α β : Type} (l : List α) (h : α → β) :
    l.zip (l.map h) = l.map fun a => (a, h a) := by
  induction l with
  | nil => rfl
  | cons a t ih => simp [ih]

lemma pcN_polycoeffsNew {d : ℕ} {p : List ℝ}
    (hlen : p.length = (d + 1) * (d + 2) / 2) :
    pcN (polycoeffsNew p) = d + 1 := by
  unfold pcN
  rw [polycoeffsNew_deg hlen]
  rfl

/-- Core of the corrected pattern-matrix equivalence: evaluating the
2-D polynomial whose triangular table scatters `q` along the
*total-degree* enumeration at the reordered positions equals the dot
product of the pattern matrix's Vandermonde row with `q` directly. -/
lemma polyval2d_reorder (d : ℕ) (q : List ℝ)
    (hq : q.length = (patternPairs d).length) (X Y : ℝ) :
    polyval2d (d + 1)
        (scatter (fun _ _ => 0) ((ijfromdeg d).zip (reorderToPoly d q))) X Y
      = dotList (vanderRow d X Y) q := by
  have hlen : (reorderToPoly d q).length = (ijfromdeg d).length := by
    unfold reorderToPoly
    rw [List.length_map]
  have hkeys : ((ijfromdeg d).zip (reorderToPoly d q)).map Prod.fst = ijfromdeg d :=
    List.map_fst_zip _ _ (le_of_eq hlen.symm)
  rw [polyval2d_scatter (d + 1) X Y _ _
    (by rw [hkeys]; exact ijfromdeg_nodup d)
    (by rw [hkeys]; intro pr hpr; have := ijfromdeg_mem hpr; omega)
    (by intro pr _; rfl)]
  rw [polyval2d_zerofn, zero_add]
  have hzip : (ijfromdeg d).zip (reorderToPoly d q)
      = (ijfromdeg d).map fun pr => (pr, q.getD (patternIdx d pr) 0) := by
    unfold reorderToPoly
    exact zip_self_map _ _
  rw [hzip, List.map_map]
  have hperm : ((ijfromdeg d).map
        ((fun e : (ℕ × ℕ) × ℝ => e.2 * (X ^ e.1.1 * Y ^ e.1.2)) ∘
          fun pr => (pr, q.getD (patternIdx d pr) 0))).Perm
      ((patternPairs d).map
        ((fun e : (ℕ × ℕ) × ℝ => e.2 * (X ^ e.1.1 * Y ^ e.1.2)) ∘
          fun pr => (pr, q.getD (patternIdx d pr) 0))) :=
    (ijfromdeg_perm_patternPairs d).map _
  rw [hperm.sum_eq]
  unfold dotList vanderRow
  apply congrArg
  apply List.ext_getElem
  · simp [List.length_zip, hq]
  · intro n h1 h2
    have hn : n < (patternPairs d).length := by simpa using h1
    simp only [List.getElem_map, Function.comp_apply, List.getElem_zip]
    rw [show patternIdx d (patternPairs d)[n] = n from
        List.indexOf_getElem (patternPairs_nodup d) n hn,
      List.getD_eq_getElem q 0 (by omega)]
    ring

/-- The coefficient/parameter/domain core of a `Poly` state, used to
state that the Jacobian-refreshing operations leave it unchanged. -/
def coreOf (s : PolyState) :
    List ℝ × List ℝ × PolycoeffsState × PolycoeffsState × (ℝ × ℝ × ℝ × ℝ) :=
  (s.parsx, s.parsy, s.pars2x, s.pars2y, (s.xmin, s.xmax, s.ymin, s.ymax))

lemma coreOf_combinejacP (s : PolyState) : coreOf (combinejacP s) = coreOf s := by
  unfold combinejacP
  split <;> rfl

lemma coreOf_setderivcoeffsP (s : PolyState) : coreOf (setderivcoeffsP s) = coreOf s := rfl

lemma coreOf_populatejacpolyP (s : PolyState) :
    coreOf (populatejacpolyP s) = coreOf s := by
  unfold populatejacpolyP
  split <;> rfl

lemma coreOf_setjacrescaleP (s : PolyState) : coreOf (setjacrescaleP s) = coreOf s := rfl

lemma coreOf_initjacpolyP (s : PolyState) : coreOf (initjacpolyP s) = coreOf s := by
  unfold initjacpolyP
  split <;> rfl

lemma coreOf_rescaleposP (s : PolyState) : coreOf (rescaleposP s) = coreOf s := rfl

lemma coreOf_getjacobianP (s : PolyState) : coreOf (getjacobianP s) = coreOf s := by
  unfold getjacobianP
  rw [coreOf_combinejacP, coreOf_populatejacpolyP]
  split
  · rw [coreOf_initjacpolyP, coreOf_setjacrescaleP]
  · rw [coreOf_setjacrescaleP]

lemma coreOf_updatejacobianP (s : PolyState) :
    coreOf (updatejacobianP s) = coreOf s := by
  unfold updatejacobianP
  rw [coreOf_getjacobianP, coreOf_rescaleposP]

/-- The constructor chain of `polyNew` only touches the Jacobian-side
fields: coefficients, parameters and domain project out unchanged. -/
lemma polyNew_proj (x y : List ℝ) (cov : List Mat2) (px py : List ℝ) (a b c e : ℝ) :
    (polyNew x y cov px py a b c e).pars2x = polycoeffsNew px ∧
      (polyNew x y cov px py a b c e).pars2y = polycoeffsNew py ∧
      (polyNew x y cov px py a b c e).xmin = a ∧
      (polyNew x y cov px py a b c e).xmax = b ∧
      (polyNew x y cov px py a b c e).ymin = c ∧
      (polyNew x y cov px py a b c e).ymax = e := by
  have h := coreOf_updatejacobianP
    { x := x, y := y, xr := [], yr := [],
      covxy := if cov.length = x.length then cov else [],
      parsx := px, parsy := py,
      pars2x := polycoeffsNew px, pars2y := polycoeffsNew py,
      cxx := fun _ _ => 0, cxy := fun _ _ => 0,
      cyx := fun _ _ => 0, cyy := fun _ _ => 0,
      xmin := a, xmax := b, ymin := c, ymax := e,
      jacrescale := jacrescaleOf a b c e,
      jacpoly := [], jac := [], xtran := [], ytran := [] }
  have hpoly : coreOf (polyNew x y cov px py a b c e)
      = (px, py, polycoeffsNew px, polycoeffsNew py, (a, b, c, e)) := h
  exact ⟨congrArg (fun t => t.2.2.1) hpoly, congrArg (fun t => t.2.2.2.1) hpoly,
    congrArg (fun t => t.2.2.2.2.1) hpoly, congrArg (fun t => t.2.2.2.2.2.1) hpoly,
    congrArg (fun t => t.2.2.2.2.2.2.1) hpoly, congrArg (fun t => t.2.2.2.2.2.2.2) hpoly⟩

lemma getD_zipWith {f : ℝ → ℝ → ℝ} {a b : List ℝ} {k : ℕ}
    (ha : k < a.length) (hb : k < b.length) :
    (a.zipWith f b).getD k 0 = f (a.getD k 0) (b.getD k 0) := by
  rw [List.getD_eq_getElem _ _ (by rw [List.length_zipWith]; omega),
    List.getElem_zipWith, List.getD_eq_getElem _ _ ha, List.getD_eq_getElem _ _ hb]

lemma polyPropxy_getD (s : PolyState) (x y : List ℝ) (k : ℕ)
    (hk : k < x.length) (hky : k < y.length) :
    (polyPropxy s x y).1.getD k 0
        = polyval2d (pcN s.pars2x) s.pars2x.p2d
            (rescaleval s.xmin s.xmax (x.getD k 0))
            (rescaleval s.ymin s.ymax (y.getD k 0)) ∧
      (polyPropxy s x y).2.getD k 0
        = polyval2d (pcN s.pars2y) s.pars2y.p2d
            (rescaleval s.xmin s.xmax (x.getD k 0))
            (rescaleval s.ymin s.ymax (y.getD k 0)) := by
  unfold polyPropxy
  rw [if_neg (by omega)]
  constructor <;>
  · show (List.zipWith _ _ _).getD k 0 = _
    rw [getD_zipWith (by rw [List.length_map]; omega) (by rw [List.length_map]; omega),
      List.getD_eq_getElem _ _ (by rw [List.length_map]; omega),
      List.getD_eq_getElem _ _ (by rw [List.length_map]; omega),
      List.getElem_map, List.getElem_map,
      List.getD_eq_getElem _ _ hk, List.getD_eq_getElem _ _ hky]

lemma patternmatrixNew_xr_getD (d : ℕ) (x y : List ℝ) (nr : Bool) (k : ℕ)
    (hk : k < x.length) :
    (patternmatrixNew d x y nr).xr.getD k 0
      = rescaleval (patternmatrixNew d x y nr).xmin
          (patternmatrixNew d x y nr).xmax (x.getD k 0) := by
  show (x.map (rescaleval _ _)).getD k 0 = _
  rw [List.getD_eq_getElem _ _ (by rw [List.length_map]; omega), List.getElem_map,
    List.getD_eq_getElem _ _ hk]
  rfl

lemma patternmatrixNew_yr_getD (d : ℕ) (x y : List ℝ) (nr : Bool) (k : ℕ)
    (hk : k < y.length) :
    (patternmatrixNew d x y nr).yr.getD k 0
      = rescaleval (patternmatrixNew d x y nr).ymin
          (patternmatrixNew d x y nr).ymax (y.getD k 0) := by
  show (y.map (rescaleval _ _)).getD k 0 = _
  rw [List.getD_eq_getElem _ _ (by rw [List.length_map]; omega), List.getElem_map,
    List.getD_eq_getElem _ _ hk]
  rfl

/-- C2 (amended): the pattern matrix reproduces `Poly.propxy` only
after each half of the flat coefficient vector is permuted from
`Polycoeffs`' total-degree power order into the pattern matrix's
row-major (Vandermonde-column) power order: for every degree `d ≥ 1`,
point list and coefficient halves of valid length,
`pattern[k] @ [px; py]` equals `Poly.propxy` at point `k` for the
`Poly` built (over the same rescaling domain) from the *reordered*
halves.  With the halves passed unpermuted — as the claim states — the
equality fails (see the counterexample). -/
theorem pattern_matrix_times_pars (d : ℕ) (hd : 1 ≤ d) (x y : List ℝ) (nr : Bool)
    (px py : List ℝ) (hpx : px.length = (patternPairs d).length)
    (hpy : py.length = (patternPairs d).length)
    (k : ℕ) (hk : k < x.length) (hxy : y.length = x.length) :
    patternTimes (patternmatrixNew d x y nr) (px ++ py) k
      = ((polyPropxy (polyNew x y [] (reorderToPoly d px) (reorderToPoly d py)
            (patternmatrixNew d x y nr).xmin (patternmatrixNew d x y nr).xmax
            (patternmatrixNew d x y nr).ymin (patternmatrixNew d x y nr).ymax)
            x y).1.getD k 0,
          (polyPropxy (polyNew x y [] (reorderToPoly d px) (reorderToPoly d py)
            (patternmatrixNew d x y nr).xmin (patternmatrixNew d x y nr).xmax
            (patternmatrixNew d x y nr).ymin (patternmatrixNew d x y nr).ymax)
            x y).2.getD k 0) := by
  have hreorder : ∀ q : List ℝ, (reorderToPoly d q).length = (d + 1) * (d + 2) / 2 := by
    intro q
    unfold reorderToPoly
    rw [List.length_map, ijfromdeg_length]
  obtain ⟨hp2x, hp2y, hxmin, hxmax, hymin, hymax⟩ :=
    polyNew_proj x y [] (reorderToPoly d px) (reorderToPoly d py)
      (patternmatrixNew d x y nr).xmin (patternmatrixNew d x y nr).xmax
      (patternmatrixNew d x y nr).ymin (patternmatrixNew d x y nr).ymax
  obtain ⟨hprop1, hprop2⟩ :=
    polyPropxy_getD (polyNew x y [] (reorderToPoly d px) (reorderToPoly d py)
      (patternmatrixNew d x y nr).xmin (patternmatrixNew d x y nr).xmax
      (patternmatrixNew d x y nr).ymin (patternmatrixNew d x y nr).ymax)
      x y k hk (by omega)
  rw [Prod.ext_iff]
  refine ⟨?_, ?_⟩ <;>
    simp only [hprop1, hprop2, hp2x, hp2y, hxmin, hxmax, hymin, hymax]
  · rw [pcN_polycoeffsNew (hreorder px), polycoeffsNew_p2d hd (hreorder px),
      polyval2d_reorder d px hpx]
    show dotList (patternRow0 (patternmatrixNew d x y nr) k) (px ++ py) = _
    unfold patternRow0
    rw [show (patternmatrixNew d x y nr).deg = d from rfl]
    rw [dotList_append_left (by rw [hpx]; unfold vanderRow; rw [List.length_map]) _ _,
      dotList_zeros, add_zero]
    rw [patternmatrixNew_xr_getD d x y nr k hk,
      patternmatrixNew_yr_getD d x y nr k (by omega)]
  · rw [pcN_polycoeffsNew (hreorder py), polycoeffsNew_p2d hd (hreorder py),
      polyval2d_reorder d py hpy]
    show dotList (patternRow1 (patternmatrixNew d x y nr) k) (px ++ py) = _
    unfold patternRow1
    rw [show (patternmatrixNew d x y nr).deg = d from rfl]
    rw [dotList_append_left (by rw [List.length_replicate, hpx]) _ _,
      dotList_zeros, zero_add]
    rw [patternmatrixNew_xr_getD d x y nr k hk,
      patternmatrixNew_yr_getD d x y nr k (by omega)]

/-- Witness for C2 (amended): degree 1, three sample points, concrete
coefficient halves, point 0. -/
theorem pattern_matrix_times_pars_witness :
    (1 ≤ 1 ∧ ([(0 : ℝ), 1, 0]).length = (patternPairs 1).length ∧
        0 < ([(0 : ℝ), 1, 0] : List ℝ).length) ∧
      patternTimes (patternmatrixNew 1 [(0 : ℝ), 1, 0] [0, 0, 1] false)
          ([0, 1, 0] ++ [0, 0, 0]) 0
        = ((polyPropxy (polyNew [(0 : ℝ), 1, 0] [0, 0, 1] []
              (reorderToPoly 1 [0, 1, 0]) (reorderToPoly 1 [0, 0, 0])
              (patternmatrixNew 1 [(0 : ℝ), 1, 0] [0, 0, 1] false).xmin
              (patternmatrixNew 1 [(0 : ℝ), 1, 0] [0, 0, 1] false).xmax
              (patternmatrixNew 1 [(0 : ℝ), 1, 0] [0, 0, 1] false).ymin
              (patternmatrixNew 1 [(0 : ℝ), 1, 0] [0, 0, 1] false).ymax)
              [(0 : ℝ), 1, 0] [0, 0, 1]).1.getD 0 0,
            (polyPropxy (polyNew [(0 : ℝ), 1, 0] [0, 0, 1] []
              (reorderToPoly 1 [0, 1, 0]) (reorderToPoly 1 [0, 0, 0])
              (patternmatrixNew 1 [(0 : ℝ), 1, 0] [0, 0, 1] false).xmin
              (patternmatrixNew 1 [(0 : ℝ), 1, 0] [0, 0, 1] false).xmax
              (patternmatrixNew 1 [(0 : ℝ), 1, 0] [0, 0, 1] false).ymin
              (patternmatrixNew 1 [(0 : ℝ), 1, 0] [0, 0, 1] false).ymax)
              [(0 : ℝ), 1, 0] [0, 0, 1]).2.getD 0 0) :=
  ⟨⟨le_rfl, by simp; decide, by simp⟩,
    pattern_matrix_times_pars 1 le_rfl [(0 : ℝ), 1, 0] [0, 0, 1] false
      [0, 1, 0] [0, 0, 0] (by simp; decide) (by simp; decide) 0 (by simp) (by simp)⟩

/-- C2 counterexample: the claim as stated — pattern matrix times the
*unpermuted* flat `[parsx; parsy]` vector equals `Poly.propxy` with the
same coefficients and domain — fails.  Degree 1, points
`x = [0,1,0]`, `y = [0,0,1]` (data-derived domain `[0,1]^2`, matching
the `Poly` constructed with the same limits), `parsx = [0,1,0]`,
`parsy = [0,0,0]`, point 1: the pattern product gives `-1` (it places
`parsx[1]` on the monomial `y`), while `Poly.propxy` gives `1` (it
places `parsx[1]` on the monomial `x`). -/
theorem pattern_vs_propxy_mismatch :
    (patternmatrixNew 1 [(0 : ℝ), 1, 0] [0, 0, 1] false).xmin = 0 ∧
      (patternmatrixNew 1 [(0 : ℝ), 1, 0] [0, 0, 1] false).xmax = 1 ∧
      (patternmatrixNew 1 [(0 : ℝ), 1, 0] [0, 0, 1] false).ymin = 0 ∧
      (patternmatrixNew 1 [(0 : ℝ), 1, 0] [0, 0, 1] false).ymax = 1 ∧
      (patternTimes (patternmatrixNew 1 [(0 : ℝ), 1, 0] [0, 0, 1] false)
          ([0, 1, 0] ++ [0, 0, 0]) 1).1 = -1 ∧
      (polyPropxy (polyNew [(0 : ℝ), 1, 0] [0, 0, 1] [] [0, 1, 0] [0, 0, 0] 0 1 0 1)
          [(0 : ℝ), 1, 0] [0, 0, 1]).1.getD 1 0 = 1 ∧
      ((-1 : ℝ) ≠ 1) := by
  have hxmin : (patternmatrixNew 1 [(0 : ℝ), 1, 0] [0, 0, 1] false).xmin = 0 := by
    show (if false then (-1 : ℝ) else npmin [(0 : ℝ), 1, 0]) = 0
    simp [npmin, min_eq_left, min_eq_right]
  have hxmax : (patternmatrixNew 1 [(0 : ℝ), 1, 0] [0, 0, 1] false).xmax = 1 := by
    show (if false then (1 : ℝ) else npmax [(0 : ℝ), 1, 0]) = 1
    simp [npmax]
  have hymin : (patternmatrixNew 1 [(0 : ℝ), 1, 0] [0, 0, 1] false).ymin = 0 := by
    show (if false then (-1 : ℝ) else npmin [(0 : ℝ), 0, 1]) = 0
    simp [npmin]
  have hymax : (patternmatrixNew 1 [(0 : ℝ), 1, 0] [0, 0, 1] false).ymax = 1 := by
    show (if false then (1 : ℝ) else npmax [(0 : ℝ), 0, 1]) = 1
    simp [npmax]
  refine ⟨hxmin, hxmax, hymin, hymax, ?_, ?_, by norm_num⟩
  · have hpp : patternPairs 1 = [(0, 0), (0, 1), (1, 0)] := by decide
    unfold patternTimes patternRow0
    simp only
    rw [show (patternmatrixNew 1 [(0 : ℝ), 1, 0] [0, 0, 1] false).deg = 1 from rfl]
    have hxr : (patternmatrixNew 1 [(0 : ℝ), 1, 0] [0, 0, 1] false).xr.getD 1 0 = 1 := by
      rw [patternmatrixNew_xr_getD 1 [(0 : ℝ), 1, 0] [0, 0, 1] false 1 (by simp),
        hxmin, hxmax]
      norm_num [rescaleval]
    have hyr : (patternmatrixNew 1 [(0 : ℝ), 1, 0] [0, 0, 1] false).yr.getD 1 0 = -1 := by
      rw [patternmatrixNew_yr_getD 1 [(0 : ℝ), 1, 0] [0, 0, 1] false 1 (by simp),
        hymin, hymax]
      norm_num [rescaleval]
    rw [hxr, hyr]
    unfold vanderRow
    rw [hpp]
    norm_num [dotList, List.zip, List.replicate]
  · obtain ⟨hp2x, -, hxm, hxM, hym, hyM⟩ :=
      polyNew_proj [(0 : ℝ), 1, 0] [0, 0, 1] [] [0, 1, 0] [0, 0, 0] 0 1 0 1
    obtain ⟨hprop1, -⟩ :=
      polyPropxy_getD (polyNew [(0 : ℝ), 1, 0] [0, 0, 1] [] [0, 1, 0] [0, 0, 0] 0 1 0 1)
        [(0 : ℝ), 1, 0] [0, 0, 1] 1 (by simp) (by simp)
    rw [hprop1, hp2x, hxm, hxM, hym, hyM]
    have hlen : ([(0 : ℝ), 1, 0]).length = (1 + 1) * (1 + 2) / 2 := by norm_num
    rw [pcN_polycoeffsNew hlen, polycoeffsNew_p2d le_rfl hlen]
    have hij : ijfromdeg 1 = [(0, 0), (1, 0), (0, 1)] := by decide
    rw [hij]
    show polyval2d 2 _ (rescaleval 0 1 (List.getD [(0 : ℝ), 1, 0] 1 0))
        (rescaleval 0 1 (List.getD [(0 : ℝ), 0, 1] 1 0)) = 1
    norm_num [polyval2d, Finset.sum_range_succ, rescaleval, scatter, setentry,
      List.zip]

/-! ### Poly.updatetransf: what is refreshed and when -/

lemma updatecoeffsPC_p {c : PolycoeffsState} {p : List ℝ} (hp : 1 ≤ p.length) :
    (updatecoeffsPC c p).p = p := by
  unfold updatecoeffsPC
  rw [if_neg (by omega)]
  unfold updatecoeffs2d
  split <;> rfl

lemma updatecoeffsPC_ne_nil_p {c : PolycoeffsState} {p : List ℝ} :
    (updatecoeffsPC c p).p = p ∨ (updatecoeffsPC c p).p = c.p := by
  unfold updatecoeffsPC
  split
  · exact Or.inr rfl
  · unfold updatecoeffs2d
    split <;> exact Or.inl rfl

lemma evaluatejacpolyP_ne_nil (s : PolyState) {xr yr : List ℝ}
    (hx : xr ≠ []) (hy : yr ≠ []) : evaluatejacpolyP s xr yr ≠ [] := by
  unfold evaluatejacpolyP
  rw [if_neg (by
    rcases xr with _ | ⟨a, t⟩
    · exact absurd rfl hx
    · rcases yr with _ | ⟨b, u⟩
      · exact absurd rfl hy
      · simp)]
  intro hcon
  rw [List.map_eq_nil_iff] at hcon
  have := congrArg List.length hcon
  rw [List.length_zip] at this
  rcases xr with _ | ⟨a, t⟩
  · exact hx rfl
  rcases yr with _ | ⟨b, u⟩
  · exact hy rfl
  simp at this

/-- Fields of the `setderivcoeffs` / `populatejacpoly` / `combinejac`
tail of `Poly.updatetransf`, for an arbitrary starting state `w`. -/
lemma jacchain_fields (w : PolyState) :
    (combinejacP (populatejacpolyP (setderivcoeffsP w))).parsx = w.parsx ∧
      (combinejacP (populatejacpolyP (setderivcoeffsP w))).parsy = w.parsy ∧
      (combinejacP (populatejacpolyP (setderivcoeffsP w))).pars2x = w.pars2x ∧
      (combinejacP (populatejacpolyP (setderivcoeffsP w))).pars2y = w.pars2y ∧
      (combinejacP (populatejacpolyP (setderivcoeffsP w))).cxx
        = derivXpad (pcN w.pars2x) w.pars2x.p2d ∧
      (combinejacP (populatejacpolyP (setderivcoeffsP w))).cxy
        = derivYpad (pcN w.pars2x) w.pars2x.p2d ∧
      (combinejacP (populatejacpolyP (setderivcoeffsP w))).cyx
        = derivXpad (pcN w.pars2y) w.pars2y.p2d ∧
      (combinejacP (populatejacpolyP (setderivcoeffsP w))).cyy
        = derivYpad (pcN w.pars2y) w.pars2y.p2d ∧
      (w.jacpoly ≠ [] →
        (combinejacP (populatejacpolyP (setderivcoeffsP w))).jacpoly
          = evaluatejacpolyP (setderivcoeffsP w) w.xr w.yr) ∧
      (w.jacpoly ≠ [] → evaluatejacpolyP (setderivcoeffsP w) w.xr w.yr ≠ [] →
        (combinejacP (populatejacpolyP (setderivcoeffsP w))).jac
          = (evaluatejacpolyP (setderivcoeffsP w) w.xr w.yr).map
              fun J => w.jacrescale * J) := by
  unfold populatejacpolyP
  split
  · rename_i hempty
    simp only [setderivcoeffsP] at hempty ⊢
    unfold combinejacP
    split <;>
      exact ⟨rfl, rfl, rfl, rfl, rfl, rfl, rfl, rfl,
        fun h => absurd (List.length_eq_zero.mp (by omega)) h,
        fun h _ => absurd (List.length_eq_zero.mp (by omega)) h⟩
  · rename_i hne
    unfold combinejacP
    split
    · rename_i hjempty
      simp only at hjempty
      refine ⟨rfl, rfl, rfl, rfl, rfl, rfl, rfl, rfl, fun _ => ?_, fun _ hnn => ?_⟩
      · rfl
      · exfalso
        apply hnn
        have : (evaluatejacpolyP (setderivcoeffsP w) w.xr w.yr).length < 1 := hjempty
        exact List.length_eq_zero.mp (by omega)
    · exact ⟨rfl, rfl, rfl, rfl, rfl, rfl, rfl, rfl, fun _ => rfl, fun _ _ => rfl⟩

lemma polyUpdatetransf_eq {s : PolyState} {pars : List ℝ} (h2 : 2 ≤ pars.length) :
    polyUpdatetransf s pars
      = combinejacP (populatejacpolyP (setderivcoeffsP
          (polyRefreshCoeffs
            (polyEnsurePars
              { s with parsx := pars.take (pars.length / 2),
                       parsy := pars.drop (pars.length / 2) })
            (pars.take (pars.length / 2)) (pars.drop (pars.length / 2))))) := by
  unfold polyUpdatetransf
  rw [show splitparsP pars = (pars.take (pars.length / 2), pars.drop (pars.length / 2))
      from by unfold splitparsP; rw [if_neg (by omega)]]
  rw [if_neg (by rw [List.length_take]; omega)]

/-- The head of the refresh pipeline keeps the data-side fields and
stores the split halves. -/
lemma polyRefresh_head_fields (s : PolyState) (px py : List ℝ) :
    (polyRefreshCoeffs (polyEnsurePars { s with parsx := px, parsy := py }) px py).parsx
        = px ∧
      (polyRefreshCoeffs (polyEnsurePars { s with parsx := px, parsy := py }) px py).parsy
        = py ∧
      (polyRefreshCoeffs (polyEnsurePars { s with parsx := px, parsy := py }) px py).xr
        = s.xr ∧
      (polyRefreshCoeffs (polyEnsurePars { s with parsx := px, parsy := py }) px py).yr
        = s.yr ∧
      (polyRefreshCoeffs (polyEnsurePars { s with parsx := px, parsy := py }) px py).jacpoly
        = s.jacpoly ∧
      (polyRefreshCoeffs (polyEnsurePars { s with parsx := px, parsy := py }) px py).jacrescale
        = s.jacrescale ∧
      (∃ c : PolycoeffsState,
        (polyRefreshCoeffs (polyEnsurePars { s with parsx := px, parsy := py }) px py).pars2x
          = updatecoeffsPC c px) ∧
      (∃ c : PolycoeffsState,
        (polyRefreshCoeffs (polyEnsurePars { s with parsx := px, parsy := py }) px py).pars2y
          = updatecoeffsPC c py) := by
  unfold polyRefreshCoeffs polyEnsurePars setupparsP
  split <;>
    exact ⟨rfl, rfl, rfl, rfl, rfl, rfl, ⟨_, rfl⟩, ⟨_, rfl⟩⟩

/-- Core facts about `Poly.updatetransf` on a vector of length ≥ 2:
the split halves are stored (x-half of length ⌊n/2⌋, y-half the rest),
the coefficient objects are refreshed with them, the derivative
coefficient arrays are recomputed from the refreshed 2-D coefficient
arrays, and — when the instance has data — the polynomial Jacobian is
re-evaluated and recombined with the (unchanged) rescale Jacobian. -/
lemma poly_updatetransf_core (s : PolyState) (pars : List ℝ) (h2 : 2 ≤ pars.length) :
    (polyUpdatetransf s pars).parsx = pars.take (pars.length / 2) ∧
      (polyUpdatetransf s pars).parsy = pars.drop (pars.length / 2) ∧
      (polyUpdatetransf s pars).pars2x.p = pars.take (pars.length / 2) ∧
      (polyUpdatetransf s pars).pars2y.p = pars.drop (pars.length / 2) ∧
      (polyUpdatetransf s pars).cxx
        = derivXpad (pcN (polyUpdatetransf s pars).pars2x)
            (polyUpdatetransf s pars).pars2x.p2d ∧
      (polyUpdatetransf s pars).cxy
        = derivYpad (pcN (polyUpdatetransf s pars).pars2x)
            (polyUpdatetransf s pars).pars2x.p2d ∧
      (polyUpdatetransf s pars).cyx
        = derivXpad (pcN (polyUpdatetransf s pars).pars2y)
            (polyUpdatetransf s pars).pars2y.p2d ∧
      (polyUpdatetransf s pars).cyy
        = derivYpad (pcN (polyUpdatetransf s pars).pars2y)
            (polyUpdatetransf s pars).pars2y.p2d ∧
      (s.jacpoly ≠ [] → s.xr ≠ [] → s.yr ≠ [] →
        (polyUpdatetransf s pars).jacpoly ≠ [] ∧
          (polyUpdatetransf s pars).jac
            = (polyUpdatetransf s pars).jacpoly.map fun J => s.jacrescale * J) := by
  rw [polyUpdatetransf_eq h2]
  obtain ⟨hwx, hwy, hxr, hyr, hjp, hjr, ⟨cx, hcx⟩, ⟨cy, hcy⟩⟩ :=
    polyRefresh_head_fields s (pars.take (pars.length / 2)) (pars.drop (pars.length / 2))
  obtain ⟨h1, h2', h3, h4, h5, h6, h7, h8, h9, h10⟩ :=
    jacchain_fields (polyRefreshCoeffs
      (polyEnsurePars
        { s with parsx := pars.take (pars.length / 2),
                 parsy := pars.drop (pars.length / 2) })
      (pars.take (pars.length / 2)) (pars.drop (pars.length / 2)))
  have hpxlen : 1 ≤ (pars.take (pars.length / 2)).length := by
    rw [List.length_take]
    omega
  have hpylen : 1 ≤ (pars.drop (pars.length / 2)).length := by
    rw [List.length_drop]
    omega
  refine ⟨by rw [h1, hwx], by rw [h2', hwy],
    by rw [h3, hcx, updatecoeffsPC_p hpxlen],
    by rw [h4, hcy, updatecoeffsPC_p hpylen],
    by rw [h5, h3], by rw [h6, h3], by rw [h7, h4], by rw [h8, h4], ?_⟩
  intro hsjp hsxr hsyr
  have hwjp : (polyRefreshCoeffs
      (polyEnsurePars
        { s with parsx := pars.take (pars.length / 2),
                 parsy := pars.drop (pars.length / 2) })
      (pars.take (pars.length / 2)) (pars.drop (pars.length / 2))).jacpoly ≠ [] := by
    rw [hjp]; exact hsjp
  have heval : evaluatejacpolyP (setderivcoeffsP
      (polyRefreshCoeffs
        (polyEnsurePars
          { s with parsx := pars.take (pars.length / 2),
                   parsy := pars.drop (pars.length / 2) })
        (pars.take (pars.length / 2)) (pars.drop (pars.length / 2))))
      (polyRefreshCoeffs
        (polyEnsurePars
          { s with parsx := pars.take (pars.length / 2),
                   parsy := pars.drop (pars.length / 2) })
        (pars.take (pars.length / 2)) (pars.drop (pars.length / 2))).xr
      (polyRefreshCoeffs
        (polyEnsurePars
          { s with parsx := pars.take (pars.length / 2),
                   parsy := pars.drop (pars.length / 2) })
        (pars.take (pars.length / 2)) (pars.drop (pars.length / 2))).yr ≠ [] := by
    apply evaluatejacpolyP_ne_nil
    · rw [hxr]; exact hsxr
    · rw [hyr]; exact hsyr
  constructor
  · rw [h9 hwjp]
    exact heval
  · rw [h10 hwjp heval, h9 hwjp, hjr]

/-- C7 (amended): `Poly.updatetransf` is a no-op for every vector of
length < 2 (not just < 1: a length-1 vector also returns early, since
`splitpars` gives empty halves for fewer than two entries); for every
vector of length n ≥ 2 the split-and-refresh occurs, with `parsx` the
first ⌊n/2⌋ entries and `parsy` the remaining ⌈n/2⌉ — equal halves only
when n is even.  Both triangular coefficient objects, the four
derivative coefficient arrays, and (when the instance holds data) the
polynomial and combined Jacobians are refreshed. -/
theorem poly_updatetransf_refreshes (s : PolyState) (pars : List ℝ) :
    (pars.length < 2 → polyUpdatetransf s pars = s) ∧
      (2 ≤ pars.length →
        (polyUpdatetransf s pars).parsx = pars.take (pars.length / 2) ∧
          (polyUpdatetransf s pars).parsy = pars.drop (pars.length / 2) ∧
          (polyUpdatetransf s pars).parsx.length = pars.length / 2 ∧
          (polyUpdatetransf s pars).parsy.length = pars.length - pars.length / 2 ∧
          (polyUpdatetransf s pars).pars2x.p = pars.take (pars.length / 2) ∧
          (polyUpdatetransf s pars).pars2y.p = pars.drop (pars.length / 2) ∧
          (polyUpdatetransf s pars).cxx
            = derivXpad (pcN (polyUpdatetransf s pars).pars2x)
                (polyUpdatetransf s pars).pars2x.p2d ∧
          (polyUpdatetransf s pars).cyy
            = derivYpad (pcN (polyUpdatetransf s pars).pars2y)
                (polyUpdatetransf s pars).pars2y.p2d ∧
          (s.jacpoly ≠ [] → s.xr ≠ [] → s.yr ≠ [] →
            (polyUpdatetransf s pars).jacpoly ≠ [] ∧
              (polyUpdatetransf s pars).jac
                = (polyUpdatetransf s pars).jacpoly.map fun J => s.jacrescale * J)) := by
  constructor
  · intro hlt
    unfold polyUpdatetransf
    rw [if_pos]
    unfold splitparsP
    rw [if_pos hlt]
    simp
  · intro h2
    obtain ⟨ha, hb, hc, hd, he, hf, hg, hh, hi⟩ := poly_updatetransf_core s pars h2
    refine ⟨ha, hb, ?_, ?_, hc, hd, he, hh, hi⟩
    · rw [ha, List.length_take]
      omega
    · rw [hb, List.length_drop]

/-- A concrete `Poly` instance (one data point, degree-0 parameter
lists, a fixed `[-1,1]^2` domain) used for the C7 witness and
counterexample. -/
def polyDemoState : PolyState := polyNew [(0 : ℝ)] [0] [] [1] [1] (-1) 1 (-1) 1

/-- Witness for C7 (amended) at the demo state with the length-4 vector
`[1, 2, 3, 4]`. -/
theorem poly_updatetransf_refreshes_witness :
    (([(1 : ℝ), 2, 3, 4]).length < 2 →
        polyUpdatetransf polyDemoState [(1 : ℝ), 2, 3, 4] = polyDemoState) ∧
      (polyUpdatetransf polyDemoState [(1 : ℝ), 2, 3, 4]).parsx
        = ([(1 : ℝ), 2, 3, 4]).take (([(1 : ℝ), 2, 3, 4]).length / 2) :=
  ⟨(poly_updatetransf_refreshes polyDemoState [(1 : ℝ), 2, 3, 4]).1,
    ((poly_updatetransf_refreshes polyDemoState [(1 : ℝ), 2, 3, 4]).2 (by simp)).1⟩

/-- C7 counterexample: the claim as stated fails twice.  A vector of
length 1 (≥ 1, so the claim demands a refresh) is in fact a no-op; and
for the odd-length vector `[1, 2, 3]` the refresh that does occur
stores *unequal* halves: `parsx` gets 1 entry and `parsy` gets 2. -/
theorem poly_updatetransf_claim_fails :
    polyUpdatetransf polyDemoState [(5 : ℝ)] = polyDemoState ∧
      (polyUpdatetransf polyDemoState [(1 : ℝ), 2, 3]).parsx.length = 1 ∧
      (polyUpdatetransf polyDemoState [(1 : ℝ), 2, 3]).parsy.length = 2 ∧
      (1 : ℕ) ≠ 2 := by
  refine ⟨?_, ?_, ?_, by omega⟩
  · unfold polyUpdatetransf
    rw [if_pos]
    unfold splitparsP
    rw [if_pos (by simp)]
    simp
  · obtain ⟨ha, -⟩ := poly_updatetransf_core polyDemoState [(1 : ℝ), 2, 3] (by simp)
    rw [ha]
    simp
  · obtain ⟨-, hb, -⟩ := poly_updatetransf_core polyDemoState [(1 : ℝ), 2, 3] (by simp)
    rw [hb]
    simp

/-! ## Gnomonic transforms: Tan2equ (tangent plane → equatorial) and
Equ2tan (equatorial → tangent plane)

All angles are converted to radians internally by the factor
`conv2rad` (π/180 in degree mode, 1 in radian mode); position outputs
are converted back by dividing by the same factor. -/

/-- `setconversion`: the angular conversion factor to radians. -/
def conv2radOf (degrees : Bool) : ℝ := if degrees then π / 180 else 1

/-- The per-point position map of `Tan2equ.propxy` in radians:
`γ = cos δ0 − η sin δ0`, `α = α0 + atan(ξ/γ)`,
`δ = atan((η cos δ0 + sin δ0)/sqrt(ξ² + γ²))`. -/
def tan2equPropPt (alpha0 delta0 xi eta : ℝ) : ℝ × ℝ :=
  (alpha0 + arctan (xi / (cos delta0 - eta * sin delta0)),
    arctan ((eta * cos delta0 + sin delta0) /
      sqrt (xi ^ 2 + (cos delta0 - eta * sin delta0) ^ 2)))

/-- `Tan2equ.propxy` on coordinate arrays (empty input → empty
output). -/
def tan2equPropxy (conv : ℝ) (pars : List ℝ) (x y : List ℝ) : List ℝ × List ℝ :=
  if x.length < 1 ∨ y.length < 1 then ([], [])
  else
    ((x.zip y).map fun q =>
        (tan2equPropPt (pars.getD 0 0 * conv) (pars.getD 1 0 * conv)
          (q.1 * conv) (q.2 * conv)).1 / conv,
      (x.zip y).map fun q =>
        (tan2equPropPt (pars.getD 0 0 * conv) (pars.getD 1 0 * conv)
          (q.1 * conv) (q.2 * conv)).2 / conv)

/-- The per-point Jacobian of `Tan2equ.evaluatejac` in radians (the
four closed forms `J_ax`, `J_ay`, `J_dx`, `J_dy` of the source). -/
def tan2equJacPt (delta0 xi eta : ℝ) : Mat2 :=
  Matrix.of
    ![![1 / ((cos delta0 - eta * sin delta0) *
          (1 + (xi / (cos delta0 - eta * sin delta0)) ^ 2)),
        xi * sin delta0 /
          (xi ^ 2 + (cos delta0) ^ 2 - 2 * eta * cos delta0 * sin delta0 +
            eta ^ 2 * (sin delta0) ^ 2)],
      ![0 - xi * (eta * cos delta0 + sin delta0) /
          ((1 + xi ^ 2 + eta ^ 2) *
            sqrt (xi ^ 2 + (cos delta0 - eta * sin delta0) ^ 2)),
        ((1 + xi ^ 2) * cos delta0 - eta * sin delta0) /
          ((1 + xi ^ 2 + eta ^ 2) *
            sqrt (xi ^ 2 + (cos delta0 - eta * sin delta0) ^ 2))]]

/-- `Tan2equ.evaluatejac` on coordinate arrays. -/
def tan2equEvaluatejac (conv : ℝ) (pars : List ℝ) (x y : List ℝ) : List Mat2 :=
  if x.length < 1 ∨ y.length < 1 then []
  else (x.zip y).map fun q =>
    tan2equJacPt (pars.getD 1 0 * conv) (q.1 * conv) (q.2 * conv)

/-- The per-point position map of `Equ2tan.propxy` in radians
(forward gnomonic projection). -/
def equ2tanPropPt (alpha0 delta0 alpha delta : ℝ) : ℝ × ℝ :=
  (cos delta * sin (alpha - alpha0) /
      (cos (alpha - alpha0) * cos delta * cos delta0 + sin delta * sin delta0),
    (cos delta0 * sin delta - cos (alpha - alpha0) * cos delta * sin delta0) /
      (cos (alpha - alpha0) * cos delta * cos delta0 + sin delta * sin delta0))

/-- `Equ2tan.propxy` on coordinate arrays. -/
def equ2tanPropxy (conv : ℝ) (pars : List ℝ) (x y : List ℝ) : List ℝ × List ℝ :=
  if x.length < 1 ∨ y.length < 1 then ([], [])
  else
    ((x.zip y).map fun q =>
        (equ2tanPropPt (pars.getD 0 0 * conv) (pars.getD 1 0 * conv)
          (q.1 * conv) (q.2 * conv)).1 / conv,
      (x.zip y).map fun q =>
        (equ2tanPropPt (pars.getD 0 0 * conv) (pars.getD 1 0 * conv)
          (q.1 * conv) (q.2 * conv)).2 / conv)

/-- The per-point Jacobian of `Equ2tan.evaluatejac` in radians. -/
def equ2tanJacPt (alpha0 delta0 alpha delta : ℝ) : Mat2 :=
  Matrix.of
    ![![cos delta * (cos delta * cos delta0 +
          cos (alpha - alpha0) * sin delta * sin delta0) /
          (cos (alpha - alpha0) * cos delta * cos delta0 + sin delta * sin delta0) ^ 2,
        (0 - sin (alpha - alpha0) * sin delta0) /
          (cos (alpha - alpha0) * cos delta * cos delta0 + sin delta * sin delta0) ^ 2],
      ![(1 / 2) * sin (alpha - alpha0) * sin (2 * delta) /
          (cos (alpha - alpha0) * cos delta * cos delta0 + sin delta * sin delta0) ^ 2,
        cos (alpha - alpha0) /
          (cos (alpha - alpha0) * cos delta * cos delta0 + sin delta * sin delta0) ^ 2]]

/-- `Equ2tan.evaluatejac` on coordinate arrays. -/
def equ2tanEvaluatejac (conv : ℝ) (pars : List ℝ) (x y : List ℝ) : List Mat2 :=
  if x.length < 1 ∨ y.length < 1 then []
  else (x.zip y).map fun q =>
    equ2tanJacPt (pars.getD 0 0 * conv) (pars.getD 1 0 * conv) (q.1 * conv) (q.2 * conv)

/-- State of a `Tan2equ` instance (fields touched by the claims). -/
structure Tan2equState where
  pars : List ℝ
  x : List ℝ
  y : List ℝ
  covxy : List Mat2
  conv2rad : ℝ
  jac : List Mat2
  xtran : List ℝ
  ytran : List ℝ

/-- State of an `Equ2tan` instance. -/
structure Equ2tanState where
  pars : List ℝ
  x : List ℝ
  y : List ℝ
  covxy : List Mat2
  conv2rad : ℝ
  jac : List Mat2
  xtran : List ℝ
  ytran : List ℝ

/-- `Tan2equ.updatetransf`: replace the tangent point and recompute the
Jacobian at the *current* positions; a parameter vector whose size is
not 2 is rejected up front. -/
def tan2equUpdatetransf (s : Tan2equState) (pars : List ℝ) : Tan2equState :=
  if pars.length ≠ 2 then s
  else { s with pars := pars,
                jac := tan2equEvaluatejac s.conv2rad pars s.x s.y }

/-- `Equ2tan.updatetransf`. -/
def equ2tanUpdatetransf (s : Equ2tanState) (pars : List ℝ) : Equ2tanState :=
  if pars.length ≠ 2 then s
  else { s with pars := pars,
                jac := equ2tanEvaluatejac s.conv2rad pars s.x s.y }

/-- `Tan2equ.propcov`: `J C Jᵀ` per point with the Jacobian evaluated
at the input points.  (The source's emptiness guard tests `self.x` and
the input `y`.) -/
def tan2equPropcov (s : Tan2equState) (C : List Mat2) (x y : List ℝ) : List Mat2 :=
  if s.x.length < 1 ∨ y.length < 1 then []
  else ((tan2equEvaluatejac s.conv2rad s.pars x y).zip C).map
    fun p => p.1 * (p.2 * p.1.transpose)

/-! ### C8: covariance symmetry, C10: gnomonic parameter guard -/

lemma sandwich_symm (J C : Mat2) (hC : C.transpose = C) :
    (J * (C * J.transpose)).transpose = J * (C * J.transpose) := by
  rw [Matrix.transpose_mul, Matrix.transpose_mul, Matrix.transpose_transpose, hC,
    Matrix.mul_assoc]

/-- C8: for every point set, every input covariance field whose
matrices are symmetric, and any state (hence any real Jacobian the code
evaluates there), the covariances returned by `Poly.propcov` and by
`Tan2equ.propcov` (`J·C·Jᵀ` per point) are all symmetric. -/
theorem propcov_preserves_symmetry (sp : PolyState) (st : Tan2equState)
    (C : List Mat2) (x y : List ℝ) (hC : ∀ c ∈ C, c.transpose = c) :
    (∀ M ∈ polyPropcov sp C x y, M.transpose = M) ∧
      (∀ M ∈ tan2equPropcov st C x y, M.transpose = M) := by
  constructor
  · intro M hM
    unfold polyPropcov at hM
    obtain ⟨⟨J, c⟩, hp, rfl⟩ := List.mem_map.mp hM
    exact sandwich_symm J c (hC c (List.mem_zip hp).2)
  · intro M hM
    unfold tan2equPropcov at hM
    split at hM
    · cases hM
    · obtain ⟨⟨J, c⟩, hp, rfl⟩ := List.mem_map.mp hM
      exact sandwich_symm J c (hC c (List.mem_zip hp).2)

/-- A concrete `Tan2equ` state (radian mode, tangent point at the
origin, one data point) for witnesses. -/
def tan2equDemoState : Tan2equState :=
  { pars := [0, 0], x := [0], y := [0], covxy := [], conv2rad := 1,
    jac := [], xtran := [], ytran := [] }

/-- A concrete `Equ2tan` state for witnesses. -/
def equ2tanDemoState : Equ2tanState :=
  { pars := [0, 0], x := [0], y := [0], covxy := [], conv2rad := 1,
    jac := [], xtran := [], ytran := [] }

/-- Witness for C8 with a concrete symmetric covariance matrix. -/
theorem propcov_preserves_symmetry_witness :
    (∀ c ∈ [Matrix.of ![![(1 : ℝ), 2], ![2, 3]]], c.transpose = c) ∧
      (∀ M ∈ polyPropcov polyDemoState [Matrix.of ![![(1 : ℝ), 2], ![2, 3]]] [0] [0],
        M.transpose = M) := by
  have hsym : ∀ c ∈ [Matrix.of ![![(1 : ℝ), 2], ![2, 3]]], c.transpose = c := by
    intro c hc
    simp only [List.mem_singleton] at hc
    subst hc
    ext i j
    fin_cases i <;> fin_cases j <;> simp [Matrix.transpose_apply]
  exact ⟨hsym,
    (propcov_preserves_symmetry polyDemoState tan2equDemoState
      [Matrix.of ![![(1 : ℝ), 2], ![2, 3]]] [0] [0] hsym).1⟩

/-- C10: for both gnomonic transforms, `updatetransf` with a parameter
vector of size ≠ 2 leaves the instance entirely unchanged; with a
size-2 vector the tangent point is replaced by (a copy of) the vector
and the Jacobian is recomputed at the current positions, the position
data itself being untouched. -/
theorem gnomonic_updatetransf_guard (st : Tan2equState) (se : Equ2tanState)
    (pars : List ℝ) :
    (pars.length ≠ 2 →
        tan2equUpdatetransf st pars = st ∧ equ2tanUpdatetransf se pars = se) ∧
      (pars.length = 2 →
        (tan2equUpdatetransf st pars).pars = pars ∧
          (tan2equUpdatetransf st pars).jac
            = tan2equEvaluatejac st.conv2rad pars st.x st.y ∧
          (tan2equUpdatetransf st pars).x = st.x ∧
          (tan2equUpdatetransf st pars).y = st.y ∧
          (equ2tanUpdatetransf se pars).pars = pars ∧
          (equ2tanUpdatetransf se pars).jac
            = equ2tanEvaluatejac se.conv2rad pars se.x se.y ∧
          (equ2tanUpdatetransf se pars).x = se.x ∧
          (equ2tanUpdatetransf se pars).y = se.y) := by
  constructor
  · intro h
    unfold tan2equUpdatetransf equ2tanUpdatetransf
    rw [if_pos h, if_pos h]
    exact ⟨rfl, rfl⟩
  · intro h
    unfold tan2equUpdatetransf equ2tanUpdatetransf
    rw [if_neg (by omega), if_neg (by omega)]
    exact ⟨rfl, rfl, rfl, rfl, rfl, rfl, rfl, rfl⟩

/-- Witness for C10: a size-3 vector is rejected, a size-2 vector
replaces the tangent point. -/
theorem gnomonic_updatetransf_guard_witness :
    (([(1 : ℝ), 2, 3]).length ≠ 2 ∧
        tan2equUpdatetransf tan2equDemoState [(1 : ℝ), 2, 3] = tan2equDemoState) ∧
      (([(4 : ℝ), 5]).length = 2 ∧
        (tan2equUpdatetransf tan2equDemoState [(4 : ℝ), 5]).pars = [(4 : ℝ), 5]) :=
  ⟨⟨by simp,
      ((gnomonic_updatetransf_guard tan2equDemoState equ2tanDemoState
        [(1 : ℝ), 2, 3]).1 (by simp)).1⟩,
    ⟨by simp,
      ((gnomonic_updatetransf_guard tan2equDemoState equ2tanDemoState
        [(4 : ℝ), 5]).2 (by simp)).1⟩⟩

/-! ### C3: gnomonic round trip

Forward projection (`Equ2tan.propxy`) followed by inverse projection
(`Tan2equ.propxy`) with the same tangent point recovers the input
exactly (in exact real arithmetic), within the convergence range
`|δ| < π/2`, `|α − α0| < π/2` and positive projection denominator. -/

lemma gnomonic_roundtrip_pt (a0 d0 a d : ℝ)
    (hd : |d| < π / 2) (hA : |a - a0| < π / 2)
    (hdenom : 0 < cos (a - a0) * cos d * cos d0 + sin d * sin d0) :
    tan2equPropPt a0 d0 (equ2tanPropPt a0 d0 a d).1 (equ2tanPropPt a0 d0 a d).2
      = (a, d) := by
  obtain ⟨hd1, hd2⟩ := abs_lt.mp hd
  obtain ⟨hA1, hA2⟩ := abs_lt.mp hA
  have hcosd : 0 < cos d := Real.cos_pos_of_mem_Ioo ⟨by linarith, hd2⟩
  have hcosA : 0 < cos (a - a0) := Real.cos_pos_of_mem_Ioo ⟨by linarith, hA2⟩
  have hD : cos (a - a0) * cos d * cos d0 + sin d * sin d0 ≠ 0 := ne_of_gt hdenom
  unfold equ2tanPropPt tan2equPropPt
  simp only
  have I1 : cos d0 -
      (cos d0 * sin d - cos (a - a0) * cos d * sin d0) /
          (cos (a - a0) * cos d * cos d0 + sin d * sin d0) * sin d0
      = cos (a - a0) * cos d /
          (cos (a - a0) * cos d * cos d0 + sin d * sin d0) := by
    field_simp
    linear_combination cos (a - a0) * cos d * Real.sin_sq_add_cos_sq d0
  have I2 : (cos d0 * sin d - cos (a - a0) * cos d * sin d0) /
          (cos (a - a0) * cos d * cos d0 + sin d * sin d0) * cos d0 + sin d0
      = sin d / (cos (a - a0) * cos d * cos d0 + sin d * sin d0) := by
    field_simp
    linear_combination sin d * Real.sin_sq_add_cos_sq d0
  have I3 : (cos d * sin (a - a0) /
          (cos (a - a0) * cos d * cos d0 + sin d * sin d0)) ^ 2 +
        (cos (a - a0) * cos d /
          (cos (a - a0) * cos d * cos d0 + sin d * sin d0)) ^ 2
      = (cos d / (cos (a - a0) * cos d * cos d0 + sin d * sin d0)) ^ 2 := by
    field_simp
    linear_combination (cos d) ^ 2 * Real.sin_sq_add_cos_sq (a - a0)
  rw [I1, I2, I3, Real.sqrt_sq (le_of_lt (div_pos hcosd hdenom))]
  have hxarg : cos d * sin (a - a0) /
        (cos (a - a0) * cos d * cos d0 + sin d * sin d0) /
        (cos (a - a0) * cos d / (cos (a - a0) * cos d * cos d0 + sin d * sin d0))
      = tan (a - a0) := by
    rw [Real.tan_eq_sin_div_cos]
    field_simp
    ring
  have hyarg : sin d / (cos (a - a0) * cos d * cos d0 + sin d * sin d0) /
        (cos d / (cos (a - a0) * cos d * cos d0 + sin d * sin d0))
      = tan d := by
    rw [Real.tan_eq_sin_div_cos]
    field_simp
  rw [hxarg, hyarg, Real.arctan_tan hA1 hA2, Real.arctan_tan hd1 hd2,
    Prod.mk.injEq]
  exact ⟨by ring, rfl⟩

/-- C3: for every tangent point `(α0, δ0)` and every sample `(α, δ)`
within the gnomonic convergence range (`|δ| < π/2`, `|α − α0| < π/2`,
positive projection denominator), mapping equatorial → tangent plane
with `Equ2tan.propxy` and back with `Tan2equ.propxy` (same tangent
point, radian mode) recovers `(α, δ)` exactly — in particular within
the claimed 1e-9 rad tolerance. -/
theorem gnomonic_roundtrip (a0 d0 a d : ℝ)
    (hd : |d| < π / 2) (hA : |a - a0| < π / 2)
    (hdenom : 0 < cos (a - a0) * cos d * cos d0 + sin d * sin d0) :
    tan2equPropxy 1 [a0, d0]
        (equ2tanPropxy 1 [a0, d0] [a] [d]).1
        (equ2tanPropxy 1 [a0, d0] [a] [d]).2
      = ([a], [d]) := by
  have hpt := gnomonic_roundtrip_pt a0 d0 a d hd hA hdenom
  unfold equ2tanPropxy tan2equPropxy
  simp only [List.length_singleton, List.zip_cons_cons, List.zip_nil_right,
    List.map_cons, List.map_nil, mul_one, div_one, List.getD]
  norm_num
  rw [Prod.mk.injEq] at hpt
  exact hpt

/-- Witness for C3 at `α0 = δ0 = 0`, `α = δ = 0`. -/
theorem gnomonic_roundtrip_witness :
    (|(0 : ℝ)| < π / 2 ∧
        (0 : ℝ) < cos ((0 : ℝ) - 0) * cos 0 * cos 0 + sin 0 * sin 0) ∧
      tan2equPropxy 1 [(0 : ℝ), 0]
          (equ2tanPropxy 1 [(0 : ℝ), 0] [0] [0]).1
          (equ2tanPropxy 1 [(0 : ℝ), 0] [0] [0]).2
        = ([(0 : ℝ)], [0]) :=
  ⟨⟨by simp [Real.pi_pos, half_pos], by norm_num⟩,
    gnomonic_roundtrip 0 0 0 0 (by simp [Real.pi_pos, half_pos])
      (by simp [Real.pi_pos, half_pos]) (by norm_num)⟩

/-! ### C1: the combined Jacobian versus the true derivative of propxy

`Poly.getjacobian` computes, per point, the matrix
`jacrescale · J_basis(xr, yr)` where `J_basis` evaluates the four
padded derivative coefficient arrays at the rescaled input.  The claim
is that this equals the matrix of partial derivatives of `propxy` with
respect to the *unrescaled* `(x, y)`. -/

/-- The x-output of `Poly.propxy` at a single point, as a function of
the raw coordinates. -/
def polyPropxyXPt (s : PolyState) (x y : ℝ) : ℝ :=
  polyval2d (pcN s.pars2x) s.pars2x.p2d
    (rescaleval s.xmin s.xmax x) (rescaleval s.ymin s.ymax y)

/-- The y-output of `Poly.propxy` at a single point. -/
def polyPropxyYPt (s : PolyState) (x y : ℝ) : ℝ :=
  polyval2d (pcN s.pars2y) s.pars2y.p2d
    (rescaleval s.xmin s.xmax x) (rescaleval s.ymin s.ymax y)

/-- One 2x2 entry of `evaluatejacpoly` after `setderivcoeffs`: the four
derivative arrays evaluated at a rescaled point. -/
def polyJacPt (s : PolyState) (xr yr : ℝ) : Mat2 :=
  Matrix.of
    ![![polyval2d (pcN s.pars2x) (derivXpad (pcN s.pars2x) s.pars2x.p2d) xr yr,
        polyval2d (pcN s.pars2x) (derivYpad (pcN s.pars2x) s.pars2x.p2d) xr yr],
      ![polyval2d (pcN s.pars2y) (derivXpad (pcN s.pars2y) s.pars2y.p2d) xr yr,
        polyval2d (pcN s.pars2y) (derivYpad (pcN s.pars2y) s.pars2y.p2d) xr yr]]

/-- The per-point combined Jacobian of `Poly.getjacobian`
(`combinejac`'s `matmul(jacrescale, jacpoly)`) at raw input `(x, y)`. -/
def polyCombinedJacAt (s : PolyState) (x y : ℝ) : Mat2 :=
  jacrescaleOf s.xmin s.xmax s.ymin s.ymax *
    polyJacPt s (rescaleval s.xmin s.xmax x) (rescaleval s.ymin s.ymax y)

/-- `polyJacPt` is exactly the per-point content of
`populatejacpoly`'s Jacobian stack. -/
lemma evaluatejacpolyP_single (s : PolyState) (xr yr : ℝ) :
    evaluatejacpolyP (setderivcoeffsP s) [xr] [yr] = [polyJacPt s xr yr] := by
  unfold evaluatejacpolyP
  rw [if_neg (by simp)]
  rfl

lemma hasDerivAt_rescaleval (vmin vmax t : ℝ) :
    HasDerivAt (rescaleval vmin vmax) (2 / (vmax - vmin)) t := by
  have h := (((hasDerivAt_id t).const_mul (2 : ℝ)).sub_const (vmax + vmin)).div_const
    (vmax - vmin)
  have h2 : HasDerivAt (rescaleval vmin vmax) (2 * 1 / (vmax - vmin)) t := h
  rw [mul_one] at h2
  exact h2

lemma hasDerivAt_polyval2d_x (n : ℕ) (c : ℕ → ℕ → ℝ) (X Y : ℝ) :
    HasDerivAt (fun t => polyval2d n c t Y) (polyval2d n (derivXpad n c) X Y) X := by
  have hsum : HasDerivAt (fun t => polyval2d n c t Y)
      (∑ i ∈ Finset.range n, ∑ j ∈ Finset.range n,
        c i j * ((i : ℝ) * X ^ (i - 1)) * Y ^ j) X := by
    unfold polyval2d
    apply HasDerivAt.sum
    intro i _
    apply HasDerivAt.sum
    intro j _
    exact ((hasDerivAt_pow i X).const_mul (c i j)).mul_const (Y ^ j)
  convert hsum using 1
  unfold polyval2d derivXpad
  cases n with
  | zero => simp
  | succ m =>
    rw [Finset.sum_range_succ]
    have hlast : (∑ j ∈ Finset.range (m + 1),
        (if m + 1 < m + 1 then ((m + 1 : ℕ) : ℝ) * c (m + 1) j else 0) * X ^ m * Y ^ j)
        = 0 := by
      apply Finset.sum_eq_zero
      intro j _
      rw [if_neg (by omega)]
      ring
    rw [hlast, add_zero, Finset.sum_range_succ' _ m]
    have hzero : (∑ j ∈ Finset.range (m + 1), c 0 j * ((0 : ℕ) : ℝ) * X ^ (0 - 1) * Y ^ j)
        = 0 := by
      apply Finset.sum_eq_zero
      intro j _
      push_cast
      ring
    rw [show (∑ j ∈ Finset.range (m + 1), c 0 j * (((0 : ℕ) : ℝ) * X ^ (0 - 1)) * Y ^ j)
        = 0 from by
      apply Finset.sum_eq_zero
      intro j _
      push_cast
      ring]
    rw [add_zero]
    apply Finset.sum_congr rfl
    intro i hi
    apply Finset.sum_congr rfl
    intro j _
    have him := Finset.mem_range.mp hi
    rw [if_pos (by omega)]
    have : (i + 1 : ℕ) - 1 = i := by omega
    rw [this]
    push_cast
    ring

lemma hasDerivAt_polyval2d_y (n : ℕ) (c : ℕ → ℕ → ℝ) (X Y : ℝ) :
    HasDerivAt (fun t => polyval2d n c X t) (polyval2d n (derivYpad n c) X Y) Y := by
  have hsum : HasDerivAt (fun t => polyval2d n c X t)
      (∑ i ∈ Finset.range n, ∑ j ∈ Finset.range n,
        c i j * X ^ i * ((j : ℝ) * Y ^ (j - 1))) Y := by
    unfold polyval2d
    apply HasDerivAt.sum
    intro i _
    apply HasDerivAt.sum
    intro j _
    exact (hasDerivAt_pow j Y).const_mul (c i j * X ^ i)
  convert hsum using 1
  unfold polyval2d derivYpad
  rw [Finset.sum_comm]
  conv_rhs => rw [Finset.sum_comm]
  cases n with
  | zero => simp
  | succ m =>
    rw [Finset.sum_range_succ]
    have hlast : (∑ i ∈ Finset.range (m + 1),
        (if m + 1 < m + 1 then ((m + 1 : ℕ) : ℝ) * c i (m + 1) else 0) * X ^ i * Y ^ m)
        = 0 := by
      apply Finset.sum_eq_zero
      intro i _
      rw [if_neg (by omega)]
      ring
    rw [hlast, add_zero, Finset.sum_range_succ' _ m]
    rw [show (∑ i ∈ Finset.range (m + 1), c i 0 * X ^ i * (((0 : ℕ) : ℝ) * Y ^ (0 - 1)))
        = 0 from by
      apply Finset.sum_eq_zero
      intro i _
      push_cast
      ring]
    rw [add_zero]
    apply Finset.sum_congr rfl
    intro j hj
    apply Finset.sum_congr rfl
    intro i _
    have hjm := Finset.mem_range.mp hj
    rw [if_pos (by omega)]
    have : (j + 1 : ℕ) - 1 = j := by omega
    rw [this]
    push_cast
    ring

lemma hasDerivAt_propX_x (s : PolyState) (x y : ℝ) :
    HasDerivAt (fun t => polyPropxyXPt s t y)
      (polyval2d (pcN s.pars2x) (derivXpad (pcN s.pars2x) s.pars2x.p2d)
          (rescaleval s.xmin s.xmax x) (rescaleval s.ymin s.ymax y)
        * (2 / (s.xmax - s.xmin))) x :=
  (hasDerivAt_polyval2d_x (pcN s.pars2x) s.pars2x.p2d
      (rescaleval s.xmin s.xmax x) (rescaleval s.ymin s.ymax y)).comp x
    (hasDerivAt_rescaleval s.xmin s.xmax x)

lemma hasDerivAt_propX_y (s : PolyState) (x y : ℝ) :
    HasDerivAt (fun t => polyPropxyXPt s x t)
      (polyval2d (pcN s.pars2x) (derivYpad (pcN s.pars2x) s.pars2x.p2d)
          (rescaleval s.xmin s.xmax x) (rescaleval s.ymin s.ymax y)
        * (2 / (s.ymax - s.ymin))) y :=
  (hasDerivAt_polyval2d_y (pcN s.pars2x) s.pars2x.p2d
      (rescaleval s.xmin s.xmax x) (rescaleval s.ymin s.ymax y)).comp y
    (hasDerivAt_rescaleval s.ymin s.ymax y)

lemma hasDerivAt_propY_x (s : PolyState) (x y : ℝ) :
    HasDerivAt (fun t => polyPropxyYPt s t y)
      (polyval2d (pcN s.pars2y) (derivXpad (pcN s.pars2y) s.pars2y.p2d)
          (rescaleval s.xmin s.xmax x) (rescaleval s.ymin s.ymax y)
        * (2 / (s.xmax - s.xmin))) x :=
  (hasDerivAt_polyval2d_x (pcN s.pars2y) s.pars2y.p2d
      (rescaleval s.xmin s.xmax x) (rescaleval s.ymin s.ymax y)).comp x
    (hasDerivAt_rescaleval s.xmin s.xmax x)

lemma hasDerivAt_propY_y (s : PolyState) (x y : ℝ) :
    HasDerivAt (fun t => polyPropxyYPt s x t)
      (polyval2d (pcN s.pars2y) (derivYpad (pcN s.pars2y) s.pars2y.p2d)
          (rescaleval s.xmin s.xmax x) (rescaleval s.ymin s.ymax y)
        * (2 / (s.ymax - s.ymin))) y :=
  (hasDerivAt_polyval2d_y (pcN s.pars2y) s.pars2y.p2d
      (rescaleval s.xmin s.xmax x) (rescaleval s.ymin s.ymax y)).comp y
    (hasDerivAt_rescaleval s.ymin s.ymax y)

lemma polyCombinedJacAt_entries (s : PolyState) (x y : ℝ) :
    polyCombinedJacAt s x y 0 0
        = 2 / (s.xmax - s.xmin) *
          polyval2d (pcN s.pars2x) (derivXpad (pcN s.pars2x) s.pars2x.p2d)
            (rescaleval s.xmin s.xmax x) (rescaleval s.ymin s.ymax y) ∧
      polyCombinedJacAt s x y 0 1
        = 2 / (s.xmax - s.xmin) *
          polyval2d (pcN s.pars2x) (derivYpad (pcN s.pars2x) s.pars2x.p2d)
            (rescaleval s.xmin s.xmax x) (rescaleval s.ymin s.ymax y) ∧
      polyCombinedJacAt s x y 1 0
        = 2 / (s.ymax - s.ymin) *
          polyval2d (pcN s.pars2y) (derivXpad (pcN s.pars2y) s.pars2y.p2d)
            (rescaleval s.xmin s.xmax x) (rescaleval s.ymin s.ymax y) ∧
      polyCombinedJacAt s x y 1 1
        = 2 / (s.ymax - s.ymin) *
          polyval2d (pcN s.pars2y) (derivYpad (pcN s.pars2y) s.pars2y.p2d)
            (rescaleval s.xmin s.xmax x) (rescaleval s.ymin s.ymax y) := by
  unfold polyCombinedJacAt polyJacPt jacrescaleOf
  refine ⟨?_, ?_, ?_, ?_⟩ <;>
    simp [Matrix.mul_apply, Fin.sum_univ_two]

/-- C1 (amended): the combined Jacobian `J = J_rescale · J_basis` of
`combinejac` equals the exact matrix of partial derivatives of
`propxy` with respect to the unrescaled `(x, y)` *when the two rescale
factors coincide* (`xmax − xmin = ymax − ymin`, e.g. a square domain).
With unequal factors only the diagonal entries agree: the code scales
*rows* by the rescale factors (left multiplication by the diagonal
matrix), while the chain rule demands scaling *columns*
(`J_basis · J_rescale`), so each off-diagonal entry picks up its row's
factor instead of its column's (see the counterexample). -/
theorem poly_combinejac_is_derivative (s : PolyState)
    (hx : s.xmax ≠ s.xmin) (hy : s.ymax ≠ s.ymin)
    (hsq : s.xmax - s.xmin = s.ymax - s.ymin) (x y : ℝ) :
    HasDerivAt (fun t => polyPropxyXPt s t y) (polyCombinedJacAt s x y 0 0) x ∧
      HasDerivAt (fun t => polyPropxyXPt s x t) (polyCombinedJacAt s x y 0 1) y ∧
      HasDerivAt (fun t => polyPropxyYPt s t y) (polyCombinedJacAt s x y 1 0) x ∧
      HasDerivAt (fun t => polyPropxyYPt s x t) (polyCombinedJacAt s x y 1 1) y := by
  obtain ⟨e00, e01, e10, e11⟩ := polyCombinedJacAt_entries s x y
  refine ⟨?_, ?_, ?_, ?_⟩
  · rw [e00]
    have h := hasDerivAt_propX_x s x y
    convert h using 1
    ring
  · rw [e01, hsq]
    have h := hasDerivAt_propX_y s x y
    convert h using 1
    ring
  · rw [e10, ← hsq]
    have h := hasDerivAt_propY_x s x y
    convert h using 1
    ring
  · rw [e11]
    have h := hasDerivAt_propY_y s x y
    convert h using 1
    ring

/-- A `Poly` with square domain `[-1,1]^2` for the C1 witness. -/
def polyC1Demo : PolyState := polyNew [(0 : ℝ)] [0] [] [0, 0, 1] [0, 0, 0] (-1) 1 (-1) 1

/-- A `Poly` with the non-square domain `[-1,1] × [-2,2]` for the C1
counterexample. -/
def polyC1Bad : PolyState := polyNew [(0 : ℝ)] [0] [] [0, 0, 1] [0, 0, 0] (-1) 1 (-2) 2

/-- Witness for C1 (amended) on the square-domain instance. -/
theorem poly_combinejac_is_derivative_witness :
    (polyC1Demo.xmax ≠ polyC1Demo.xmin ∧ polyC1Demo.ymax ≠ polyC1Demo.ymin ∧
        polyC1Demo.xmax - polyC1Demo.xmin = polyC1Demo.ymax - polyC1Demo.ymin) ∧
      HasDerivAt (fun t => polyPropxyXPt polyC1Demo t 0)
        (polyCombinedJacAt polyC1Demo 0 0 0 0) 0 := by
  obtain ⟨-, -, hxm, hxM, hym, hyM⟩ :=
    polyNew_proj [(0 : ℝ)] [0] [] [0, 0, 1] [0, 0, 0] (-1) 1 (-1) 1
  have h1 : polyC1Demo.xmax ≠ polyC1Demo.xmin := by
    rw [show polyC1Demo.xmax = 1 from hxM, show polyC1Demo.xmin = -1 from hxm]
    norm_num
  have h2 : polyC1Demo.ymax ≠ polyC1Demo.ymin := by
    rw [show polyC1Demo.ymax = 1 from hyM, show polyC1Demo.ymin = -1 from hym]
    norm_num
  have h3 : polyC1Demo.xmax - polyC1Demo.xmin = polyC1Demo.ymax - polyC1Demo.ymin := by
    rw [show polyC1Demo.xmax = 1 from hxM, show polyC1Demo.xmin = -1 from hxm,
      show polyC1Demo.ymax = 1 from hyM, show polyC1Demo.ymin = -1 from hym]
  exact ⟨⟨h1, h2, h3⟩, (poly_combinejac_is_derivative polyC1Demo h1 h2 h3 0 0).1⟩

/-- C1 counterexample: on the non-degenerate rectangular domain
`[-1,1] × [-2,2]` with x-coefficients `[0, 0, 1]` (so `xtran = yr`),
the exact derivative of `propxy`'s x-output with respect to `y` at the
origin is `1/2`, but `combinejac`'s combined Jacobian entry `[0,1]` is
`1`: the rescale factor applied is the row's `2/(xmax−xmin) = 1`
instead of the column's `2/(ymax−ymin) = 1/2`. -/
theorem poly_combinejac_entry_mismatch :
    HasDerivAt (fun t => polyPropxyXPt polyC1Bad 0 t) ((1 : ℝ) / 2) 0 ∧
      polyCombinedJacAt polyC1Bad 0 0 0 1 = 1 ∧ ((1 : ℝ) / 2 ≠ 1) := by
  obtain ⟨hp2x, -, hxm, hxM, hym, hyM⟩ :=
    polyNew_proj [(0 : ℝ)] [0] [] [0, 0, 1] [0, 0, 0] (-1) 1 (-2) 2
  have hlen : ([(0 : ℝ), 0, 1]).length = (1 + 1) * (1 + 2) / 2 := by norm_num
  have hij : ijfromdeg 1 = [(0, 0), (1, 0), (0, 1)] := by decide
  have hder : polyval2d (pcN polyC1Bad.pars2x)
      (derivYpad (pcN polyC1Bad.pars2x) polyC1Bad.pars2x.p2d)
      (rescaleval polyC1Bad.xmin polyC1Bad.xmax 0)
      (rescaleval polyC1Bad.ymin polyC1Bad.ymax 0) = 1 := by
    rw [show polyC1Bad.pars2x = polycoeffsNew [(0 : ℝ), 0, 1] from hp2x,
      pcN_polycoeffsNew hlen, polycoeffsNew_p2d le_rfl hlen, hij,
      show polyC1Bad.xmin = -1 from hxm, show polyC1Bad.xmax = 1 from hxM,
      show polyC1Bad.ymin = -2 from hym, show polyC1Bad.ymax = 2 from hyM]
    norm_num [polyval2d, Finset.sum_range_succ, rescaleval, derivYpad,
      scatter, setentry]
  refine ⟨?_, ?_, by norm_num⟩
  · have h := hasDerivAt_propX_y polyC1Bad 0 0
    rw [hder] at h
    rw [show polyC1Bad.ymin = -2 from hym, show polyC1Bad.ymax = 2 from hyM] at h
    convert h using 1
    norm_num
  · obtain ⟨-, e01, -, -⟩ := polyCombinedJacAt_entries polyC1Bad 0 0
    rw [e01, hder, show polyC1Bad.xmin = -1 from hxm, show polyC1Bad.xmax = 1 from hxM]
    norm_num

/-! ### C9: parameter updates re-derive the gnomonic positions first

`xy2equ.updatetransf` re-ingests the parameter vector through a fresh
`Parvec`, pushes the polynomial coefficients into the `Poly`
sub-transform, re-evaluates the polynomial position map (`tranpos`),
copies the transformed positions into the gnomonic sub-transform, and
only then updates the gnomonic sub-transform (which recomputes its
Jacobian at its *current* — i.e. freshly copied — positions). -/

/-- `Poly.tranpos`: store `propxy` of the instance data. -/
def polyTranpos (s : PolyState) : PolyState :=
  { s with xtran := (polyPropxy s s.x s.y).1,
           ytran := (polyPropxy s s.x s.y).2 }

/-- State of an `xy2equ` instance. -/
structure Xy2equState where
  parsx : List ℝ
  parsy : List ℝ
  tangentpoint : List ℝ
  polyhasxy0 : Bool
  inds6 : List ℕ
  x : List ℝ
  y : List ℝ
  covxy : List Mat2
  xy2tp : PolyState
  tp2equ : Tan2equState

/-- The tail of `xy2equ.updatetransf` after the parameters have been
distributed: update the polynomial sub-transform, re-derive its
positions, copy them into the gnomonic sub-transform, then update the
gnomonic sub-transform with the tangent point. -/
def xy2equFinish (s : Xy2equState) : Xy2equState :=
  { s with
      xy2tp := polyTranpos (polyUpdatetransf s.xy2tp (s.parsx ++ s.parsy)),
      tp2equ := tan2equUpdatetransf
        { s.tp2equ with
            x := (polyTranpos (polyUpdatetransf s.xy2tp (s.parsx ++ s.parsy))).xtran,
            y := (polyTranpos (polyUpdatetransf s.xy2tp (s.parsx ++ s.parsy))).ytran }
        s.tangentpoint }

/-- `xy2equ.updatetransf`: early return for an empty vector, then
`updatepars` (a fresh `Parvec` ingestion; its `AttributeError` on an
invalid vector propagates, leaving the `xy2equ` state untouched),
then the finish sequence above. -/
def xy2equUpdatetransf (s : Xy2equState) (pars : List ℝ) : Xy2equState × Bool :=
  if pars.length < 1 then (s, false)
  else
    match parvecIngestpars parvecInit pars with
    | (_, true) => (s, true)
    | (pv, false) =>
      (xy2equFinish
        { s with parsx := pv.parsx, parsy := pv.parsy,
                 tangentpoint := pv.tangentpoint, polyhasxy0 := pv.hasxy0,
                 inds6 := pv.inds6 }, false)

/-- A concrete `xy2equ` state for the C9 witness. -/
def xy2equDemoState : Xy2equState :=
  { parsx := [], parsy := [], tangentpoint := [0, 0], polyhasxy0 := false,
    inds6 := [], x := [0], y := [0], covxy := [],
    xy2tp := polyDemoState, tp2equ := tan2equDemoState }

/-- `Parvec.ingestpars` on a *valid* parameter vector: no error, the
tangent point is the first two entries, and the two coefficient halves
come out nonempty and of equal length. -/
lemma parvec_ingest_valid (s : ParvecState) (pars : List ℝ)
    (h3 : 3 ≤ pars.length) (heven : (pars.length - 2) % 2 = 0)
    (hv : degIsInt ((pars.length - 2) / 2) ∨ degIsInt ((pars.length - 2) / 2 + 1)) :
    (parvecIngestpars s pars).2 = false ∧
      (parvecIngestpars s pars).1.tangentpoint = pars.take 2 ∧
      (parvecIngestpars s pars).1.parsx.length
        = (parvecIngestpars s pars).1.parsy.length ∧
      1 ≤ (parvecIngestpars s pars).1.parsx.length := by
  have hdrop : (pars.drop 2).length = pars.length - 2 := List.length_drop ..
  have htake : ((pars.drop 2).take ((pars.drop 2).length / 2)).length
      = (pars.length - 2) / 2 := by
    rw [List.length_take, hdrop]
    omega
  have hdrop2 : ((pars.drop 2).drop ((pars.drop 2).length / 2)).length
      = (pars.length - 2) / 2 := by
    rw [List.length_drop, hdrop]
    omega
  unfold parvecIngestpars
  rw [if_neg (by omega), if_neg (by omega), if_neg (by rw [hdrop]; omega), htake]
  by_cases hd1 : degIsInt ((pars.length - 2) / 2)
  · rw [if_pos hd1]
    refine ⟨rfl, rfl, ?_, ?_⟩
    · simp only
      rw [htake, hdrop2]
    · simp only
      rw [htake]
      omega
  · rw [if_neg hd1, if_pos (by tauto)]
    refine ⟨rfl, rfl, ?_, ?_⟩
    · simp only [List.length_cons]
      rw [htake, hdrop2]
    · simp

/-- C9: after `xy2equ.updatetransf` with a valid parameter vector, the
gnomonic sub-transform's working positions equal the polynomial
sub-transform's position map applied to its current data under the new
parameters, the gnomonic tangent point is the head of the vector, and
the gnomonic Jacobian is evaluated exactly at those re-derived
positions — never at stale ones. -/
theorem xy2equ_updatetransf_rederives (s : Xy2equState) (pars : List ℝ)
    (h3 : 3 ≤ pars.length) (heven : (pars.length - 2) % 2 = 0)
    (hv : degIsInt ((pars.length - 2) / 2) ∨ degIsInt ((pars.length - 2) / 2 + 1)) :
    (xy2equUpdatetransf s pars).2 = false ∧
      (xy2equUpdatetransf s pars).1.tp2equ.x
        = (polyPropxy (xy2equUpdatetransf s pars).1.xy2tp
            (xy2equUpdatetransf s pars).1.xy2tp.x
            (xy2equUpdatetransf s pars).1.xy2tp.y).1 ∧
      (xy2equUpdatetransf s pars).1.tp2equ.y
        = (polyPropxy (xy2equUpdatetransf s pars).1.xy2tp
            (xy2equUpdatetransf s pars).1.xy2tp.x
            (xy2equUpdatetransf s pars).1.xy2tp.y).2 ∧
      (xy2equUpdatetransf s pars).1.tp2equ.pars = pars.take 2 ∧
      (xy2equUpdatetransf s pars).1.tp2equ.jac
        = tan2equEvaluatejac (xy2equUpdatetransf s pars).1.tp2equ.conv2rad
            (xy2equUpdatetransf s pars).1.tp2equ.pars
            (xy2equUpdatetransf s pars).1.tp2equ.x
            (xy2equUpdatetransf s pars).1.tp2equ.y := by
  obtain ⟨hb, htp, hlen, hpos⟩ := parvec_ingest_valid parvecInit pars h3 heven hv
  have htp2 : (pars.take 2).length = 2 := by
    rw [List.length_take]
    omega
  rcases hpv : parvecIngestpars parvecInit pars with ⟨pv, b⟩
  rw [hpv] at hb htp hlen hpos
  simp only at hb htp hlen hpos
  subst hb
  unfold xy2equUpdatetransf
  rw [if_neg (by omega), hpv]
  simp only
  unfold xy2equFinish
  simp only
  rw [htp]
  unfold tan2equUpdatetransf
  rw [if_neg (by omega)]
  refine ⟨?_, ?_, ?_, ?_, ?_⟩ <;> first | rfl | trivial

/-- Witness for C9 at the valid vector `[1, 2, 3, 4, 5, 6]`:
tangent point `[1, 2]`, coefficient halves `[3, 4]` and `[5, 6]` of
length 2, accepted via the no-constant-term branch (a leading zero is
prepended, giving the valid degree-1 count 3). -/
theorem xy2equ_updatetransf_rederives_witness :
    (3 ≤ ([(1 : ℝ), 2, 3, 4, 5, 6]).length ∧
        (([(1 : ℝ), 2, 3, 4, 5, 6]).length - 2) % 2 = 0 ∧
        (degIsInt ((([(1 : ℝ), 2, 3, 4, 5, 6]).length - 2) / 2) ∨
          degIsInt ((([(1 : ℝ), 2, 3, 4, 5, 6]).length - 2) / 2 + 1))) ∧
      (xy2equUpdatetransf xy2equDemoState [(1 : ℝ), 2, 3, 4, 5, 6]).2 = false :=
  ⟨⟨by simp, by simp, by right; simp; decide⟩,
    (xy2equ_updatetransf_rederives xy2equDemoState [(1 : ℝ), 2, 3, 4, 5, 6]
      (by simp) (by simp) (by right; simp; decide)).1⟩

end

end Unctytwod
